import Mathlib

/-!
Verification development for the twinleaf-rust host-side tooling.

The definitions below are a shallow embedding of the Rust sources under
`src/twinleaf/src/data/` (filter.rs, export.rs) and
`src/twinleaf-tools/src/` (lib.rs, bin/tio-tool.rs).  Code of the
repository that is not shipped in those files (the `tio` protocol crate:
`DeviceRoute`, `Packet::deserialize`, the `Sample` structure) and the
third-party `glob` crate are modelled from the specification's own words;
every such definition carries a doc comment saying what it models.
Machine integers are modelled as `Nat`/`Int` (all quantities involved stay
far from their wrap points in the scenarios proved), `f64` timestamps as
`Rat` (no floating-point arithmetic is performed on them by the code under
study: they are only stored and compared for presence), and HDF5 file
effects as an explicit event trace.
-/

namespace Twinleaf

/-! ## Association-list helpers (model of Rust `HashMap` operations) -/

/-- Lookup in an association list (model of `HashMap::get`). -/
def alookup {K V : Type} [DecidableEq K] (l : List (K × V)) (k : K) : Option V :=
  match l with
  | [] => none
  | (k', v) :: rest => if k = k' then some v else alookup rest k

/-- Insert a binding only if the key is absent (model of `entry(k).or_insert_with(v)`
when the entry is not subsequently modified). -/
def orInsert {K V : Type} [DecidableEq K] (l : List (K × V)) (k : K) (v : V) :
    List (K × V) :=
  match l with
  | [] => [(k, v)]
  | (k', v') :: rest => if k = k' then (k', v') :: rest else (k', v') :: orInsert rest k v

/-- Replace the value at a key, inserting it if absent (model of `HashMap::insert`). -/
def aset {K V : Type} [DecidableEq K] (l : List (K × V)) (k : K) (v : V) :
    List (K × V) :=
  match l with
  | [] => [(k, v)]
  | (k', v') :: rest => if k = k' then (k', v) :: rest else (k', v') :: aset rest k v

/-- Modify the value at a key when present (model of `get_mut`). -/
def adjust {K V : Type} [DecidableEq K] (l : List (K × V)) (k : K) (f : V → V) :
    List (K × V) :=
  match l with
  | [] => []
  | (k', v') :: rest => if k = k' then (k', f v') :: rest else (k', v') :: adjust rest k f

/-- Lookup with a default (model of `map.get(k).copied().unwrap_or(d)`). -/
def alookupD {K V : Type} [DecidableEq K] (l : List (K × V)) (k : K) (d : V) : V :=
  (alookup l k).getD d

/-! ## Decimal rendering of naturals (model of Rust `format!` of integers) -/

/-- One decimal digit as a character. -/
def digitChar (d : Nat) : Char := Char.ofNat (48 + d)

/-- Accumulator loop producing the decimal digits of `n` (most significant first),
prepended to `acc`. -/
def natCharsGo : Nat → Nat → List Char → List Char
  | 0, _, acc => acc
  | fuel + 1, n, acc =>
    if n < 10 then digitChar n :: acc
    else natCharsGo fuel (n / 10) (digitChar (n % 10) :: acc)

/-- Decimal digits of `n`, most significant first. -/
def natChars (n : Nat) : List Char := natCharsGo (n + 1) n []

/-- Decimal string of `n`. -/
def natStr (n : Nat) : String := String.mk (natChars n)

/-- Zero-padded rendering to width six (model of the Rust format spec `{:06}`
used for run numbers in `make_group_path`). -/
def pad6 (n : Nat) : String :=
  String.mk (List.replicate (6 - (natChars n).length) '0' ++ natChars n)

/-- Join a list of character lists with a separator character. -/
def joinChar (sep : Char) : List (List Char) → List Char
  | [] => []
  | [x] => x
  | x :: y :: rest => x ++ sep :: joinChar sep (y :: rest)

/-! ## DeviceRoute

Modelled from the spec: the `tio` protocol crate's `DeviceRoute`
(`src/twinleaf/src/tio/proto`) is not among the shipped sources.  Per §3 of
the spec a route is "an ordered sequence of routing indices, each in
`0..=254`", with maximum depth 8, the empty route denoting root; per §4.7
"route string uses `/`-joined indices". -/

/-- A device route: the sequence of routing indices. -/
abbrev DeviceRoute := List Nat

/-- Modelled from the spec: `DeviceRoute::root()` — the empty route. -/
def DeviceRoute.rootRoute : DeviceRoute := []

/-- Modelled from the spec: `DeviceRoute` rendered with `/`-joined indices;
the root route renders as "/". -/
def routeToString (r : DeviceRoute) : String :=
  if r = [] then "/" else String.mk ('/' :: joinChar '/' (r.map natChars))

/-- `route.to_string().trim_start_matches('/')` as computed in
`Hdf5Appender::write_batch` and `ColumnFilter::get_path_string`: the
`/`-joined indices without the leading slash (empty for the root route). -/
def trimmedRouteChars (r : DeviceRoute) : List Char :=
  joinChar '/' (r.map natChars)

/-- String form of `trimmedRouteChars`. -/
def trimmedRouteStr (r : DeviceRoute) : String :=
  String.mk (trimmedRouteChars r)

/-- Split a character list at `/` separators (every segment kept, including
empty ones, as Rust `str::split('/')` does). -/
def splitSlash : List Char → List (List Char)
  | [] => [[]]
  | c :: rest =>
    if c = '/' then [] :: splitSlash rest
    else
      match splitSlash rest with
      | [] => [[c]]
      | seg :: segs => (c :: seg) :: segs

/-- Parse a non-empty all-digit character list as a natural number. -/
def digitsToNat : List Char → Option Nat
  | [] => none
  | l =>
    if l.all Char.isDigit then
      some (l.foldl (fun acc c => acc * 10 + (c.toNat - 48)) 0)
    else none

/-- Modelled from the spec: `DeviceRoute::from_str`.  Per §3 and §7 a route
string is `/`-joined numeric indices, each in `0..=254`, depth at most 8;
invalid syntax or exceeded depth is a `Routing` error. -/
def DeviceRoute.fromStr (s : String) : Except Unit DeviceRoute :=
  let segs := (splitSlash s.toList).filter (fun seg => seg ≠ [])
  match segs.mapM digitsToNat with
  | none => .error ()
  | some idxs =>
    if idxs.all (· ≤ 254) && idxs.length ≤ 8 then .ok idxs else .error ()

/-- Modelled from the spec: `DeviceRoute::relative_route` — for a prefix it
yields the suffix, otherwise it fails (§8 "Routing"). -/
def DeviceRoute.relativeRoute (a b : DeviceRoute) : Except Unit DeviceRoute :=
  if a.isPrefixOf b then .ok (b.drop a.length) else .error ()

/-- `TioOpts::parse_route` (src/twinleaf-tools/src/lib.rs lines 29-33):
`DeviceRoute::from_str(&self.route_path).unwrap_or_else(|_| DeviceRoute::root())`. -/
def parseRoute (routePath : String) : DeviceRoute :=
  match DeviceRoute.fromStr routePath with
  | .ok r => r
  | .error _ => DeviceRoute.rootRoute

/-! ## Glob patterns

Modelled from the spec: the third-party `glob` crate's `Pattern` is not part
of this repository.  We model the semantics the repository itself documents
and relies upon (filter.rs lines 11-13 and §4.9 of the spec): `*` matches
any characters except `/` (a single path segment), `**` matches any
characters including `/` (zero or more segments). -/

/-- A compiled glob token. -/
inductive GlobTok
  | lit (c : Char)
  | star
  | starStar
deriving DecidableEq

/-- Compile a glob pattern string into tokens: `**` becomes `starStar`,
a single `*` becomes `star`, anything else is literal. -/
def tokenize : List Char → List GlobTok
  | [] => []
  | '*' :: '*' :: rest => .starStar :: tokenize rest
  | '*' :: rest => .star :: tokenize rest
  | c :: rest => .lit c :: tokenize rest

/-- Glob matching worker: `star` consumes any run of non-`/` characters,
`starStar` consumes any run of characters.  Every recursive call shortens
the token list or the string, so fuel `ts.length + s.length + 1` always
suffices. -/
def globMatchF : Nat → List GlobTok → List Char → Bool
  | 0, _, _ => false
  | _ + 1, [], s => s.isEmpty
  | _ + 1, .lit _ :: _, [] => false
  | fuel + 1, .lit c :: ts, c2 :: s => c == c2 && globMatchF fuel ts s
  | fuel + 1, .star :: ts, [] => globMatchF fuel ts []
  | fuel + 1, .star :: ts, c :: s =>
    globMatchF fuel ts (c :: s) || (!(c == '/') && globMatchF fuel (.star :: ts) s)
  | fuel + 1, .starStar :: ts, [] => globMatchF fuel ts []
  | fuel + 1, .starStar :: ts, c :: s =>
    globMatchF fuel ts (c :: s) || globMatchF fuel (.starStar :: ts) s

/-- Glob matching of a token list against a string. -/
def globMatch (ts : List GlobTok) (s : List Char) : Bool :=
  globMatchF (ts.length + s.length + 1) ts s

/-! ## ColumnFilter (src/twinleaf/src/data/filter.rs) -/

/-- Trim ASCII/Unicode whitespace from both ends (model of Rust `str::trim`). -/
def trimChars (l : List Char) : List Char :=
  ((l.dropWhile Char.isWhitespace).reverse.dropWhile Char.isWhitespace).reverse

/-- `ColumnFilter::is_alphabetic_name` (filter.rs lines 94-98): a string is an
alphabetic name if it contains at least one letter. -/
def isAlphabeticName (s : List Char) : Bool := s.any Char.isAlpha

/-- `ColumnFilter::normalize_pattern` (filter.rs lines 58-91). -/
def normalizePattern (patternStr : List Char) : List Char :=
  let trimmed := trimChars patternStr
  if trimmed = [] then trimmed
  else if trimmed.any (· == '*') then
    if ['*', '*', '/'].isPrefixOf trimmed
        && !(['/', '*', '*'].isSuffixOf trimmed)
        && !(['/', '*'].isSuffixOf trimmed) then
      let afterPre := trimmed.drop 3
      if !(afterPre.any (· == '/')) && isAlphabeticName afterPre then
        ['*', '*', '/', '*', '/'] ++ afterPre
      else trimmed
    else trimmed
  else if !(trimmed.any (· == '/')) then
    ['*', '*', '/'] ++ trimmed ++ ['/', '*', '*']
  else trimmed

/-- A `ColumnFilter`: the compiled (normalized) glob pattern. -/
structure ColumnFilter where
  toks : List GlobTok
deriving DecidableEq

/-- `ColumnFilter::new` (filter.rs lines 44-50).  Pattern-compilation errors
of the glob crate do not arise for the patterns considered here, so the
model is total. -/
def ColumnFilter.mk' (patternStr : String) : ColumnFilter :=
  ⟨tokenize (normalizePattern patternStr.toList)⟩

/-- `ColumnFilter::get_path_string` (filter.rs lines 105-119): the synthetic
path `/{route}/{stream}/{col}`, with no route segment for the root route. -/
def ColumnFilter.getPathChars (route : DeviceRoute) (streamName colName : String) :
    List Char :=
  let cleanRoute := trimmedRouteChars route
  if cleanRoute = [] then '/' :: streamName.toList ++ '/' :: colName.toList
  else '/' :: cleanRoute ++ '/' :: streamName.toList ++ '/' :: colName.toList

/-- `ColumnFilter::get_path_string` as a `String`. -/
def ColumnFilter.getPathString (route : DeviceRoute) (streamName colName : String) :
    String :=
  String.mk (ColumnFilter.getPathChars route streamName colName)

/-- `ColumnFilter::matches` (filter.rs lines 100-103). -/
def ColumnFilter.matches (f : ColumnFilter) (route : DeviceRoute)
    (streamName colName : String) : Bool :=
  globMatch f.toks (ColumnFilter.getPathChars route streamName colName)

/-! ## Data model

The metadata entities and `Sample` live in the `tio` protocol crate and
`data/sample.rs`, which are not among the shipped sources; they are
modelled from §3 of the spec.  `export.rs` (which is shipped) only reads
the fields reproduced here. -/

/-- The three logical buffer types of §3. -/
inductive BufferType
  | float
  | int
  | uint
deriving DecidableEq

/-- Modelled from the spec: column wire data types (§3), each mapping to a
buffer type. -/
inductive DataType
  | u8 | u16 | u32 | u64 | i8 | i16 | i32 | i64 | f32 | f64
deriving DecidableEq

/-- `data_type` to logical buffer type mapping (§3). -/
def DataType.bufferType : DataType → BufferType
  | .u8 | .u16 | .u32 | .u64 => .uint
  | .i8 | .i16 | .i32 | .i64 => .int
  | .f32 | .f64 => .float

/-- Modelled from the spec: `ColumnMetadata` (§3). -/
structure ColumnMetadata where
  index : Nat
  name : String
  units : String
  description : String
  dataType : DataType
deriving DecidableEq

/-- Modelled from the spec: `StreamMetadata` (§3). -/
structure StreamMetadata where
  streamId : Nat
  name : String
  sampleSize : Nat
  nColumns : Nat
  totalSamples : Nat
deriving DecidableEq

/-- Modelled from the spec: `SegmentMetadata` (§3).  Rates and times are
modelled as rationals; `filter_type` and `time_ref_epoch` by their `u8` wire
representations (export.rs converts them with `Into<u8>` before writing). -/
structure SegmentMetadata where
  samplingRate : Rat
  decimation : Nat
  filterCutoff : Rat
  filterType : Nat
  timeRefEpoch : Nat
  timeRefSerial : String
  startTime : Rat
  sampleNOffset : Nat
deriving DecidableEq

/-- Modelled from the spec: the value held by one column of a sample,
widened to the column's buffer type (§4.6). -/
inductive ColumnData
  | float (v : Rat)
  | int (v : Int)
  | uint (v : Nat)
deriving DecidableEq

/-- Modelled from the spec: one column of a parsed sample. -/
structure SampleColumn where
  desc : ColumnMetadata
  value : ColumnData
deriving DecidableEq

/-- Modelled from the spec: boundary reasons (§3). -/
inductive BoundaryReason
  | initial
  | sessionChanged
  | streamMetadataChanged
  | segmentChanged
  | columnDescChanged
  | timeWentBackward
  | sampleGap
deriving DecidableEq

/-- Modelled from the spec: a parsed `Sample` (§3), restricted to the fields
`export.rs` reads.  `sessionId` stands for `sample.device.session_id` and
`timestampEnd` for the value of `sample.timestamp_end()`. -/
structure Sample where
  n : Nat
  sessionId : Nat
  stream : StreamMetadata
  segment : SegmentMetadata
  columns : List SampleColumn
  boundary : Option BoundaryReason
  timestampEnd : Rat
deriving DecidableEq

/-- Modelled from the spec: `is_continuous()` is true iff there is no
boundary or its reason is `Initial` or `ColumnDescChanged` (§3). -/
def Sample.isContinuous (s : Sample) : Bool :=
  match s.boundary with
  | none => true
  | some r => r = .initial || r = .columnDescChanged

/-- Modelled from the spec: `is_monotonic()` is true iff the boundary reason
is not `TimeWentBackward` (§3). -/
def Sample.isMonotonic (s : Sample) : Bool :=
  match s.boundary with
  | none => true
  | some r => !(r = .timeWentBackward)

/-- `StreamKey { route, stream_id }` (tio proto identifiers), the key the
appender batches by. -/
structure StreamKey where
  route : DeviceRoute
  streamId : Nat
deriving DecidableEq

/-! ## HDF5 appender (src/twinleaf/src/data/export.rs)

The appender is embedded as a pure state machine; writes to the HDF5 file
become events on a trace.  One `ChunkEvent` records everything a single
successful `write_batch` invocation writes: the target group (identified by
its path, together with the stream key and run id that produced the path),
the group attributes created when the batch is the first chunk of its run,
the rows appended to the `sample_number` and `time` datasets, and the names
of the column datasets appended. -/

/-- `SplitPolicy` (export.rs lines 15-22). -/
inductive SplitPolicy
  | continuous
  | monotonic
deriving DecidableEq

/-- `RunSplitLevel` (export.rs lines 25-36). -/
inductive RunSplitLevel
  | nosplit
  | perStream
  | perDevice
  | global
deriving DecidableEq

/-- `ColumnBatch` (export.rs lines 46-50). -/
inductive ColumnBatch
  | f64 (v : List Rat)
  | i64 (v : List Int)
  | u64 (v : List Nat)
deriving DecidableEq

/-- `PendingBatch` (export.rs lines 52-61); the two `HashMap`s become
association lists. -/
structure PendingBatch where
  sampleNumbers : List Nat
  timestamps : List Rat
  columns : List (Nat × ColumnBatch)
  streamMetadata : StreamMetadata
  segmentMetadata : SegmentMetadata
  columnMetadata : List (Nat × ColumnMetadata)
  sessionId : Nat
  isFirstChunk : Bool
deriving DecidableEq

/-- `PendingBatch::new` (export.rs lines 64-75). -/
def PendingBatch.new (sample : Sample) : PendingBatch where
  sampleNumbers := []
  timestamps := []
  columns := []
  streamMetadata := sample.stream
  segmentMetadata := sample.segment
  columnMetadata := []
  sessionId := sample.sessionId
  isFirstChunk := true

/-- `PendingBatch::len` (export.rs lines 77-79). -/
def PendingBatch.length (b : PendingBatch) : Nat := b.timestamps.length

/-- `PendingBatch::is_empty` (export.rs lines 81-83). -/
def PendingBatch.isEmpty (b : PendingBatch) : Bool := b.timestamps.isEmpty

/-- The empty column accumulator for a buffer type (export.rs lines 99-105). -/
def emptyColumnBatch : BufferType → ColumnBatch
  | .float => .f64 []
  | .int => .i64 []
  | .uint => .u64 []

/-- The value push of export.rs lines 107-113: matching (accumulator, value)
pairs append, everything else is silently dropped. -/
def ColumnBatch.pushValue (cb : ColumnBatch) (v : ColumnData) : ColumnBatch :=
  match cb, v with
  | .f64 l, .float val => .f64 (l ++ [val])
  | .f64 l, .int val => .f64 (l ++ [(val : Rat)])
  | .i64 l, .int val => .i64 (l ++ [val])
  | .u64 l, .uint val => .u64 (l ++ [val])
  | cb, _ => cb

/-- One column's contribution to `PendingBatch::push` (export.rs lines 92-114). -/
def PendingBatch.pushColumn (b : PendingBatch) (col : SampleColumn) : PendingBatch :=
  let colId := col.desc.index
  let meta' := orInsert b.columnMetadata colId col.desc
  let cols' := orInsert b.columns colId (emptyColumnBatch col.desc.dataType.bufferType)
  { b with
    columnMetadata := meta'
    columns := adjust cols' colId (fun cb => cb.pushValue col.value) }

/-- `PendingBatch::push` (export.rs lines 85-115). -/
def PendingBatch.push (b : PendingBatch) (sample : Sample) : PendingBatch :=
  let b := { b with
    sampleNumbers := b.sampleNumbers ++ [sample.n]
    timestamps := b.timestamps ++ [sample.timestampEnd]
    segmentMetadata := sample.segment }
  sample.columns.foldl PendingBatch.pushColumn b

/-- `PendingBatch::drain` (export.rs lines 117-130): the returned batch takes
the accumulated data and the current `is_first_chunk`; the residual batch is
emptied and its `is_first_chunk` cleared. -/
def PendingBatch.drain (b : PendingBatch) : PendingBatch × PendingBatch :=
  (b,
   { b with
     sampleNumbers := []
     timestamps := []
     columns := []
     columnMetadata := []
     isFirstChunk := false })

/-- The static configuration of an `Hdf5Appender` (constructor arguments of
`with_options`, export.rs lines 188-213; `compress` and `debug` do not
affect which groups, attributes and rows are written and are omitted). -/
structure AppenderCfg where
  filter : Option ColumnFilter
  batchSize : Nat
  splitPolicy : SplitPolicy
  splitLevel : RunSplitLevel
deriving DecidableEq

/-- One `write_batch` invocation's effect on the HDF5 file (export.rs lines
342-434): the group written, the attributes created on it (empty unless the
batch was its run's first chunk), the `time_ref_serial` value of the batch's
segment metadata (recorded so that the attribute condition can be stated),
the rows appended to `sample_number` and `time`, and the column datasets
appended. -/
structure ChunkEvent where
  key : StreamKey
  run : Option Nat
  path : String
  attrNames : List String
  serial : String
  sampleNumbers : List Nat
  timestamps : List Rat
  cols : List String
deriving DecidableEq

/-- The mutable state of an `Hdf5Appender` (export.rs lines 133-148), with
the HDF5 file replaced by the trace of chunk events. -/
structure AppenderState where
  pending : List (StreamKey × PendingBatch)
  streamRuns : List (StreamKey × Nat)
  deviceRuns : List (DeviceRoute × Nat)
  globalRun : Nat
  events : List ChunkEvent
deriving DecidableEq

/-- The fresh appender state (export.rs lines 197-212). -/
def AppenderState.initial : AppenderState where
  pending := []
  streamRuns := []
  deviceRuns := []
  globalRun := 0
  events := []

/-- `Hdf5Appender::make_group_path` (export.rs lines 289-322). -/
def makeGroupPath (cfg : AppenderCfg) (st : AppenderState) (routeStr : String)
    (streamName : String) (key : StreamKey) : String :=
  match cfg.splitLevel with
  | .nosplit =>
    if routeStr = "" then "/" ++ streamName
    else "/" ++ routeStr ++ "/" ++ streamName
  | .perStream =>
    let runId := alookupD st.streamRuns key 0
    if routeStr = "" then "/" ++ streamName ++ "/run_" ++ pad6 runId
    else "/" ++ routeStr ++ "/" ++ streamName ++ "/run_" ++ pad6 runId
  | .perDevice =>
    let runId := alookupD st.deviceRuns key.route 0
    if routeStr = "" then "/run_" ++ pad6 runId ++ "/" ++ streamName
    else "/" ++ routeStr ++ "/run_" ++ pad6 runId ++ "/" ++ streamName
  | .global =>
    if routeStr = "" then "/run_" ++ pad6 st.globalRun ++ "/" ++ streamName
    else "/run_" ++ pad6 st.globalRun ++ "/" ++ routeStr ++ "/" ++ streamName

/-- `Hdf5Appender::get_run_id` (export.rs lines 466-475). -/
def getRunId (cfg : AppenderCfg) (st : AppenderState) (key : StreamKey) : Option Nat :=
  match cfg.splitLevel with
  | .nosplit => none
  | .perStream => some (alookupD st.streamRuns key 0)
  | .perDevice => some (alookupD st.deviceRuns key.route 0)
  | .global => some st.globalRun

/-- Whether the configured filter lets a column through (export.rs lines
357-369; no filter lets everything through). -/
def filterAllows (cfg : AppenderCfg) (route : DeviceRoute)
    (streamName colName : String) : Bool :=
  match cfg.filter with
  | none => true
  | some f => f.matches route streamName colName

/-- The `valid_columns` computation of `write_batch` (export.rs lines
350-373): columns keep their metadata lookup and survive the filter. -/
def validColumns (cfg : AppenderCfg) (key : StreamKey) (streamName : String)
    (batch : PendingBatch) : List (Nat × ColumnBatch × ColumnMetadata) :=
  batch.columns.filterMap (fun p =>
    match alookup batch.columnMetadata p.1 with
    | none => none
    | some meta =>
      if filterAllows cfg key.route streamName meta.name
      then some (p.1, p.2, meta)
      else none)

/-- The names of the group attributes `write_metadata_attributes` creates,
in source order (export.rs lines 436-464): `run_id` is present iff
`get_run_id` yields one, `time_ref_serial` iff the segment's serial is
non-empty. -/
def metadataAttrNames (cfg : AppenderCfg) (st : AppenderState) (key : StreamKey)
    (batch : PendingBatch) : List String :=
  ["sampling_rate", "decimation", "start_time", "filter_cutoff", "session_id"]
    ++ (match getRunId cfg st key with
        | some _ => ["run_id"]
        | none => [])
    ++ ["time_ref_epoch", "filter_type"]
    ++ (if batch.segmentMetadata.timeRefSerial = "" then []
        else ["time_ref_serial"])

/-- `Hdf5Appender::write_batch` (export.rs lines 342-434): an empty batch or
one whose every column is filtered out writes nothing; otherwise one chunk
event is appended to the trace. -/
def writeBatch (cfg : AppenderCfg) (st : AppenderState) (key : StreamKey)
    (batch : PendingBatch) : AppenderState :=
  if batch.isEmpty then st
  else
    let routeStr := trimmedRouteStr key.route
    let streamName := batch.streamMetadata.name
    let valid := validColumns cfg key streamName batch
    if valid.isEmpty then st
    else
      let path := makeGroupPath cfg st routeStr streamName key
      let ev : ChunkEvent :=
        { key := key
          run := getRunId cfg st key
          path := path
          attrNames := if batch.isFirstChunk then metadataAttrNames cfg st key batch else []
          serial := batch.segmentMetadata.timeRefSerial
          sampleNumbers := batch.sampleNumbers
          timestamps := batch.timestamps
          cols := valid.map (fun v => v.2.2.name) }
      { st with events := st.events ++ [ev] }

/-- `Hdf5Appender::flush_stream` (export.rs lines 324-332). -/
def flushStream (cfg : AppenderCfg) (st : AppenderState) (key : StreamKey) :
    AppenderState :=
  match alookup st.pending key with
  | none => st
  | some batch =>
    if batch.isEmpty then st
    else
      let st' := { st with pending := aset st.pending key batch.drain.2 }
      writeBatch cfg st' key batch.drain.1

/-- Set a pending batch's `is_first_chunk` back to true when the key is
pending (the `if let Some(batch) = self.pending.get_mut(...)` pattern of
export.rs lines 245-247, 271-273, 282-284). -/
def setFirstChunk (st : AppenderState) (key : StreamKey) : AppenderState :=
  { st with pending := adjust st.pending key (fun b => { b with isFirstChunk := true }) }

/-- `Hdf5Appender::flush_all_for_device` (export.rs lines 262-276). -/
def flushAllForDevice (cfg : AppenderCfg) (st : AppenderState) (route : DeviceRoute) :
    AppenderState :=
  let keys := (st.pending.map Prod.fst).filter (fun k => k.route = route)
  keys.foldl (fun st k => setFirstChunk (flushStream cfg st k) k) st

/-- `Hdf5Appender::flush_all` (export.rs lines 278-287). -/
def flushAll (cfg : AppenderCfg) (st : AppenderState) : AppenderState :=
  let keys := st.pending.map Prod.fst
  keys.foldl (fun st k => setFirstChunk (flushStream cfg st k) k) st

/-- `Hdf5Appender::handle_discontinuity` (export.rs lines 238-260). -/
def handleDiscontinuity (cfg : AppenderCfg) (st : AppenderState) (key : StreamKey) :
    AppenderState :=
  match cfg.splitLevel with
  | .nosplit => flushStream cfg st key
  | .perStream =>
    let st := setFirstChunk (flushStream cfg st key) key
    { st with streamRuns := aset st.streamRuns key (alookupD st.streamRuns key 0 + 1) }
  | .perDevice =>
    let st := flushAllForDevice cfg st key.route
    let newRuns := aset st.deviceRuns key.route (alookupD st.deviceRuns key.route 0 + 1)
    { st with deviceRuns := newRuns }
  | .global =>
    let st := flushAll cfg st
    { st with globalRun := st.globalRun + 1 }

/-- The split decision and discontinuity handling of `write_sample`
(export.rs lines 216-223). -/
def writeSampleSplit (cfg : AppenderCfg) (st : AppenderState) (sample : Sample)
    (key : StreamKey) : AppenderState :=
  if (match cfg.splitPolicy with
      | .continuous => !sample.isContinuous
      | .monotonic => !sample.isMonotonic) then
    handleDiscontinuity cfg st key
  else st

/-- The fresh-batch insertion of `write_sample` (export.rs lines 225-227). -/
def writeSampleInsert (st : AppenderState) (sample : Sample) (key : StreamKey) :
    AppenderState :=
  if (alookup st.pending key).isNone then
    { st with pending := aset st.pending key (PendingBatch.new sample) }
  else st

/-- The batch push of `write_sample` (export.rs line 229). -/
def writeSamplePush (st : AppenderState) (sample : Sample) (key : StreamKey) :
    AppenderState :=
  { st with pending := adjust st.pending key (fun b => b.push sample) }

/-- The batch-size flush of `write_sample` (export.rs lines 231-233). -/
def writeSampleFlush (cfg : AppenderCfg) (st : AppenderState) (key : StreamKey) :
    AppenderState :=
  match alookup st.pending key with
  | some b => if cfg.batchSize ≤ b.length then flushStream cfg st key else st
  | none => st

/-- `Hdf5Appender::write_sample` (export.rs lines 215-236). -/
def writeSample (cfg : AppenderCfg) (st : AppenderState) (sample : Sample)
    (key : StreamKey) : AppenderState :=
  writeSampleFlush cfg
    (writeSamplePush (writeSampleInsert (writeSampleSplit cfg st sample key) sample key)
      sample key)
    key

/-- `Hdf5Appender::finish` (export.rs lines 334-340). -/
def finishAppender (cfg : AppenderCfg) (st : AppenderState) : AppenderState :=
  (st.pending.map Prod.fst).foldl (fun st k => flushStream cfg st k) st

/-- Feed a list of `(sample, key)` pairs through `write_sample`. -/
def writeSamples (cfg : AppenderCfg) (st : AppenderState)
    (ops : List (Sample × StreamKey)) : AppenderState :=
  ops.foldl (fun st p => writeSample cfg st p.1 p.2) st

/-- Run the appender on a list of samples and finish, yielding the trace of
chunk events written to the file. -/
def runAppender (cfg : AppenderCfg) (ops : List (Sample × StreamKey)) :
    List ChunkEvent :=
  (finishAppender cfg (writeSamples cfg AppenderState.initial ops)).events

/-! ## Firmware upload (src/twinleaf-tools/src/bin/tio-tool.rs, `firmware_upgrade`)

The upload loop of lines 1119-1200 is embedded as a state machine driven by
an environment: a list of receive events, one consumed per receive attempt.
`wouldBlock` is what `try_recv` reports when no packet is ready (when the
code is in the blocking `recv` branch the loop guards are unchanged by a
fruitless wait, so modelling the wait as a loop iteration is faithful);
`reply`/`rpcError`/`other` are the payloads the `match` at lines 1155-1173
distinguishes.  The actions record what the client sends. -/

/-- The three mutable loop variables of `firmware_upgrade` (lines 1119-1121). -/
structure UploadState where
  nextSend : Nat
  nextAck : Nat
  moreToSend : Bool
deriving DecidableEq

/-- The initial upload state (lines 1119-1121). -/
def UploadState.start : UploadState where
  nextSend := 0
  nextAck := 0
  moreToSend := true

/-- What one receive attempt yields. -/
inductive RecvEvent
  | wouldBlock
  | reply (id : Nat)
  | rpcError
  | other
deriving DecidableEq

/-- Observable actions of the upload client: an `RpcRequest` with a method
name, request id and payload byte range, an acknowledged chunk, or a
bare RPC action call. -/
inductive UploadAction
  | send (method : String) (id : Nat) (start stop : Nat)
  | ack (id : Nat)
  | rpcAction (method : String)
deriving DecidableEq

/-- How the upload ends. -/
inductive UploadResult
  | upgraded
  | aborted
  | blocked
  | outOfFuel
deriving DecidableEq

/-- The loop guard `more_to_send || (next_ack_chunk != next_send_chunk)`
(line 1124). -/
def uploadLoopActive (st : UploadState) : Bool :=
  st.moreToSend || !(st.nextAck == st.nextSend)

/-- The send step of lines 1125-1143: when more data remains and fewer than
`MAX_CHUNKS_IN_FLIGHT = 2` chunks are unacknowledged, send the next chunk
(288 bytes, clamped to the firmware length) with id equal to its index. -/
def uploadTrySend (len : Nat) (st : UploadState) : UploadState × List UploadAction :=
  if st.moreToSend && st.nextSend - st.nextAck < 2 then
    let off := st.nextSend * 288
    let stop := min (off + 288) len
    ({ nextSend := st.nextSend + 1, nextAck := st.nextAck,
       moreToSend := decide (stop < len) },
     [.send ("dev.firmware.upload") st.nextSend off stop])
  else (st, [])

/-- The upload loop of lines 1124-1174 followed by the
`dev.firmware.upgrade` action of lines 1198-1200, driven by an environment
of receive events.  Replies whose id is not the next unacknowledged chunk,
and `RpcError` payloads, abort (the `panic!` arms). -/
def uploadLoop (fuel : Nat) (len : Nat) (st : UploadState) (env : List RecvEvent) :
    UploadResult × List UploadAction :=
  match fuel with
  | 0 => (.outOfFuel, [])
  | fuel + 1 =>
    if uploadLoopActive st then
      let st1 := (uploadTrySend len st).1
      let sent := (uploadTrySend len st).2
      match env with
      | [] => (.blocked, sent)
      | ev :: env' =>
        match ev with
        | .wouldBlock =>
          let next := uploadLoop fuel len st1 env'
          (next.1, sent ++ next.2)
        | .other =>
          let next := uploadLoop fuel len st1 env'
          (next.1, sent ++ next.2)
        | .rpcError => (.aborted, sent)
        | .reply id =>
          if id == st1.nextAck then
            let next := uploadLoop fuel len { st1 with nextAck := st1.nextAck + 1 } env'
            (next.1, sent ++ .ack id :: next.2)
          else (.aborted, sent)
    else (.upgraded, [.rpcAction ("dev.firmware.upgrade")])

/-- Run the upload of a `len`-byte firmware image from the initial state. -/
def runUpload (fuel len : Nat) (env : List RecvEvent) :
    UploadResult × List UploadAction :=
  uploadLoop fuel len UploadState.start env

/-! ## Packet deserialization and `log-dump`

Modelled from the spec: `Packet::deserialize` lives in the `tio` protocol
crate, not among the shipped sources.  §4.1: little-endian header
`type:u8 | routing_size_and_flags:u8 | payload_length:u16`, the low 4 bits
of byte 1 holding the routing length R (0..=8), then `payload_length`
payload bytes, then `R` routing bytes; `NeedMore` when the buffer is short
of a full frame, `Invalid` when routing_size > 8 or payload_length > 32 KiB.
Payload discrimination beyond the type byte is not needed by the claims
settled here, so the payload is kept as its type id and raw bytes. -/

/-- Modelled from the spec: a deserialized packet, with its payload kept as
the type byte plus raw bytes. -/
structure Packet where
  typeId : Nat
  payloadBytes : List Nat
  routing : DeviceRoute
deriving DecidableEq

/-- Deserialization failures (§4.1 contracts). -/
inductive ParseFail
  | needMore
  | invalid
deriving DecidableEq

/-- Modelled from the spec: `Packet::deserialize(bytes) ->
Result<(Packet, consumed_len), ParseError>` per the §4.1 contracts. -/
def Packet.deserialize (b : List Nat) : Except ParseFail (Packet × Nat) :=
  match b with
  | t :: flags :: lenLo :: lenHi :: rest =>
    let r := flags % 16
    let plen := lenLo + 256 * lenHi
    if 8 < r then .error .invalid
    else if 32768 < plen then .error .invalid
    else if rest.length < plen + r then .error .needMore
    else
      .ok ({ typeId := t, payloadBytes := rest.take plen,
             routing := (rest.drop plen).take r }, 4 + plen + r)
  | _ => .error .needMore

/-- Greedily decode a byte buffer into packets: `some` packets when the
whole buffer is consumed cleanly, `none` when a frame fails to deserialize
before the end.  `fuel` bounds the recursion; `bytes.length` suffices since
every frame consumes at least 4 bytes. -/
def decodeAll (fuel : Nat) (b : List Nat) : Option (List Packet) :=
  match fuel with
  | 0 => if b = [] then some [] else none
  | fuel + 1 =>
    if b = [] then some []
    else
      match Packet.deserialize b with
      | .error _ => none
      | .ok (pkt, len) => (decodeAll fuel (b.drop len)).map (pkt :: ·)

/-- Greedily decode the packets of a prefix of the buffer, stopping at the
first frame that fails to deserialize (the `Err(_) => break` of
tio-tool.rs line 777). -/
def decodePrefix (fuel : Nat) (b : List Nat) : List Packet :=
  match fuel with
  | 0 => []
  | fuel + 1 =>
    if b = [] then []
    else
      match Packet.deserialize b with
      | .error _ => []
      | .ok (pkt, len) => pkt :: decodePrefix fuel (b.drop len)

/-- Whether a packet's route is printed by `log-dump` (the `route_matches`
closure of tio-tool.rs lines 734-739). -/
def routeMatches (target : DeviceRoute) (depth : Option Nat) (route : DeviceRoute) :
    Bool :=
  match DeviceRoute.relativeRoute target route with
  | .ok rel =>
    match depth with
    | none => true
    | some maxDepth => rel.length ≤ maxDepth
  | .error _ => false

/-- The raw-mode file loop of `log_dump` (tio-tool.rs lines 748-764): decode
frames back to back; a frame that fails to deserialize makes the whole
command fail (the `.map_err(...)?`). -/
def logDumpRawFile (target : DeviceRoute) (depth : Option Nat) (fuel : Nat)
    (b : List Nat) : Except Unit (List Packet) :=
  match fuel with
  | 0 => if b = [] then .ok [] else .error ()
  | fuel + 1 =>
    if b = [] then .ok []
    else
      match Packet.deserialize b with
      | .error _ => .error ()
      | .ok (pkt, len) =>
        match logDumpRawFile target depth fuel (b.drop len) with
        | .error e => .error e
        | .ok printed =>
          if routeMatches target depth pkt.routing then .ok (pkt :: printed)
          else .ok printed

/-- `log_dump` in raw mode (neither `-d` nor `-m`; tio-tool.rs lines
724-764), over in-memory file contents: returns the packets printed, or the
failure the command exits with. -/
def logDumpRaw (files : List (List Nat)) (sensor : String) (depth : Option Nat) :
    Except Unit (List Packet) :=
  if files = [] then .error ()
  else
    let target := parseRoute sensor
    files.foldl
      (fun acc f =>
        match acc with
        | .error e => .error e
        | .ok printed =>
          match logDumpRawFile target depth f.length f with
          | .error e => .error e
          | .ok more => .ok (printed ++ more))
      (.ok [])

/-- The parsed-mode file loop of `log_dump` (tio-tool.rs lines 770-795):
frames are decoded until the first one that fails to deserialize (`break`),
each decoded packet fed to a per-route parser.  The parser
(`DeviceDataParser`, not among the shipped sources) is abstracted as an
arbitrary step function; it influences only what is printed, which the
claims here do not inspect, so the model returns the packets processed. -/
def logDumpParsedFile {σ : Type} (pnew : σ) (pstep : σ → Packet → σ × List Nat)
    (parsers : List (DeviceRoute × σ)) (fuel : Nat) (b : List Nat) :
    List (DeviceRoute × σ) × List Packet :=
  match fuel with
  | 0 => (parsers, [])
  | fuel + 1 =>
    if b = [] then (parsers, [])
    else
      match Packet.deserialize b with
      | .error _ => (parsers, [])
      | .ok (pkt, len) =>
        let p := (alookup parsers pkt.routing).getD pnew
        let parsers' := aset parsers pkt.routing (pstep p pkt).1
        let next := logDumpParsedFile pnew pstep parsers' fuel (b.drop len)
        (next.1, pkt :: next.2)

/-- `log_dump` in parsed mode (`-d` and/or `-m`; tio-tool.rs lines 724-727
and 765-796): per-route parsers are kept in a map, every decodable frame is
processed, a frame that fails to deserialize stops that file, and the
command returns success. -/
def logDumpParsed {σ : Type} (pnew : σ) (pstep : σ → Packet → σ × List Nat)
    (files : List (List Nat)) : Except Unit (List Packet) :=
  if files = [] then .error ()
  else
    .ok (files.foldl
      (fun acc f =>
        let next := logDumpParsedFile pnew pstep acc.1 f.length f
        (next.1, acc.2 ++ next.2))
      (([] : List (DeviceRoute × σ)), ([] : List Packet))).2

/-! ## `log-csv` (src/twinleaf-tools/src/bin/tio-tool.rs, `log_csv`)

The CSV converter is modelled over the stream of `(packet route, samples
the parser emitted for that packet)` pairs: the parser (`DeviceDataParser`)
is not among the shipped sources, and `log_csv`'s own logic — the part
shipped and under study — only consumes its output.  CSV rows are kept
structurally (a header of column names, or a data row of timestamp and
values) since the claims concern which rows exist, not their formatting. -/

/-- The fields of a parsed sample that `log_csv` reads. -/
structure CsvSample where
  streamId : Nat
  streamName : String
  colNames : List String
  values : List ColumnData
  timestamp : Rat
deriving DecidableEq

/-- A line of the output CSV, kept structurally. -/
inductive CsvLine
  | header (names : List String)
  | data (timestamp : Rat) (values : List ColumnData)
deriving DecidableEq

/-- Modelled from Rust `str::parse::<u8>().ok()`: an optional `+` sign
followed by one or more digits, value at most 255. -/
def parseU8 (s : String) : Option Nat :=
  let l := match s.toList with
           | '+' :: rest => rest
           | l => l
  match digitsToNat l with
  | some v => if v ≤ 255 then some v else none
  | none => none

/-- The stream match of tio-tool.rs lines 888-892: by id when the stream
argument parses as a `u8`, by name otherwise. -/
def csvSampleMatches (streamArg : String) (s : CsvSample) : Bool :=
  match parseU8 streamArg with
  | some id => s.streamId == id
  | none => s.streamName == streamArg

/-- Processing of one sample (tio-tool.rs lines 887-912): mismatching
samples are skipped; the header row (`time` followed by the sample's column
names) is written before the first matching sample; every matching sample
appends a data row. -/
def csvStep (streamArg : String) (acc : Bool × List CsvLine) (s : CsvSample) :
    Bool × List CsvLine :=
  if csvSampleMatches streamArg s then
    if acc.1 then (true, acc.2 ++ [.data s.timestamp s.values])
    else (true, acc.2 ++ [.header ("time" :: s.colNames), .data s.timestamp s.values])
  else acc

/-- The `log_csv` main loop (tio-tool.rs lines 872-914) over the abstract
input stream: every packet's samples are produced by the parser, but only
packets whose routing equals the target route contribute rows. -/
def csvRun (streamArg : String) (target : DeviceRoute)
    (inputs : List (DeviceRoute × List CsvSample)) : Bool × List CsvLine :=
  inputs.foldl
    (fun acc p =>
      if p.1 = target then p.2.foldl (csvStep streamArg) acc
      else acc)
    (false, [])

/-- `log_csv` final accounting (tio-tool.rs lines 916-932): when no header
was ever written the output file is removed and the command fails.  Returns
(lines of the surviving file if any, command success). -/
def logCsv (streamArg : String) (target : DeviceRoute)
    (inputs : List (DeviceRoute × List CsvSample)) :
    Option (List CsvLine) × Bool :=
  if (csvRun streamArg target inputs).1
  then (some (csvRun streamArg target inputs).2, true)
  else (none, false)

/-- Whether any input sample matches the requested stream and route. -/
def csvAnyMatch (streamArg : String) (target : DeviceRoute)
    (inputs : List (DeviceRoute × List CsvSample)) : Bool :=
  inputs.any (fun p => p.1 = target && p.2.any (csvSampleMatches streamArg))

/-- The samples `log_csv` considers, in processing order: the samples of the
packets whose routing equals the target route. -/
def csvRelevant (target : DeviceRoute)
    (inputs : List (DeviceRoute × List CsvSample)) : List CsvSample :=
  (inputs.filter (fun p => p.1 = target)).flatMap (fun p => p.2)

/-- The first sample matching the requested stream and route, if any. -/
def csvFirstMatch (streamArg : String) (target : DeviceRoute)
    (inputs : List (DeviceRoute × List CsvSample)) : Option CsvSample :=
  (csvRelevant target inputs).find? (csvSampleMatches streamArg)

/-- Number of header rows among the output lines. -/
def headerCount (lines : List CsvLine) : Nat :=
  (lines.filter (fun l => match l with | .header _ => true | .data _ _ => false)).length

/-- Specification-level description of the rows `log_csv` emits for a run of
samples, given whether the header has already been written. -/
def csvEmit (streamArg : String) : Bool → List CsvSample → List CsvLine
  | _, [] => []
  | hw, s :: rest =>
    if csvSampleMatches streamArg s then
      (if hw then [CsvLine.data s.timestamp s.values]
       else [CsvLine.header ("time" :: s.colNames), CsvLine.data s.timestamp s.values])
        ++ csvEmit streamArg true rest
    else csvEmit streamArg hw rest

/-! ## Specification-side templates and invariants used by the theorems -/

/-- The route contribution to a group path, per §4.7 of the spec: the
`/`-joined indices preceded by `/`, or nothing for the root route. -/
def routeSegment (route : DeviceRoute) : String :=
  if route = [] then "" else "/" ++ trimmedRouteStr route

/-- The group-path template of §4.7 of the spec, as written there:
None `/{route}/{stream}`, PerStream `/{route}/{stream}/run_{NNNNNN}`,
PerDevice `/{route}/run_{NNNNNN}/{stream}`, Global
`/run_{NNNNNN}/{route}/{stream}`; the root route contributes no segment and
run numbers are zero-padded to six digits. -/
def groupPathSpec (lvl : RunSplitLevel) (route : DeviceRoute) (streamName : String)
    (run : Nat) : String :=
  match lvl with
  | .nosplit => routeSegment route ++ "/" ++ streamName
  | .perStream => routeSegment route ++ "/" ++ streamName ++ "/run_" ++ pad6 run
  | .perDevice => routeSegment route ++ "/run_" ++ pad6 run ++ "/" ++ streamName
  | .global => "/run_" ++ pad6 run ++ routeSegment route ++ "/" ++ streamName

/-- The attribute set §4.7 of the spec prescribes for a run's group:
the seven unconditional attributes, `run_id` when runs are split at all,
`time_ref_serial` when the segment's serial is non-empty (in the order the
source writes them). -/
def expectedAttrs (lvl : RunSplitLevel) (serial : String) : List String :=
  ["sampling_rate", "decimation", "start_time", "filter_cutoff", "session_id"]
    ++ (if lvl = .nosplit then [] else ["run_id"])
    ++ ["time_ref_epoch", "filter_type"]
    ++ (if serial = "" then [] else ["time_ref_serial"])

/-- The chunk events written to one run of one stream: those carrying the
given key and run id. -/
def evsFor (evs : List ChunkEvent) (key : StreamKey) (rt : Option Nat) :
    List ChunkEvent :=
  evs.filter (fun e => decide (e.key = key) && decide (e.run = rt))

/-- A run's event list is well formed when its first chunk carries exactly
the expected attribute set and every later chunk carries none. -/
def WellFormedRun (lvl : RunSplitLevel) : List ChunkEvent → Prop
  | [] => True
  | e :: rest => e.attrNames = expectedAttrs lvl e.serial ∧ ∀ e' ∈ rest, e'.attrNames = []

/-- Every already-written event's run id is at most the current run counter
of its stream (so a freshly bumped run can have no events yet). -/
def EventRunLe (cfg : AppenderCfg) (st : AppenderState) (e : ChunkEvent) : Prop :=
  match cfg.splitLevel with
  | .nosplit => e.run = none
  | .perStream => ∃ r, e.run = some r ∧ r ≤ alookupD st.streamRuns e.key 0
  | .perDevice => ∃ r, e.run = some r ∧ r ≤ alookupD st.deviceRuns e.key.route 0
  | .global => ∃ r, e.run = some r ∧ r ≤ st.globalRun

/-- Structural well-formedness of a pending batch: every accumulated column
has its metadata recorded, and a batch holding rows holds columns. -/
def BatchWf (b : PendingBatch) : Prop :=
  (∀ cid, (alookup b.columns cid).isSome = true →
      (alookup b.columnMetadata cid).isSome = true)
  ∧ (b.timestamps ≠ [] → b.columns ≠ [])

/-- The state-independent core of the appender invariant. -/
structure AppInvCore (cfg : AppenderCfg) (st : AppenderState) : Prop where
  nodup : (st.pending.map Prod.fst).Nodup
  wf : ∀ key rt, WellFormedRun cfg.splitLevel (evsFor st.events key rt)
  fresh : ∀ key, alookup st.pending key = none → ∀ rt, evsFor st.events key rt = []
  runLe : ∀ e ∈ st.events, EventRunLe cfg st e
  batchWf : ∀ key b, alookup st.pending key = some b → BatchWf b

/-- The first-chunk bookkeeping of one pending stream: its `is_first_chunk`
flag is set exactly when its current run has no events yet. -/
def FirstCond (cfg : AppenderCfg) (st : AppenderState) (key : StreamKey) : Prop :=
  ∀ b, alookup st.pending key = some b →
    (b.isFirstChunk = true → evsFor st.events key (getRunId cfg st key) = [])
    ∧ (b.isFirstChunk = false → evsFor st.events key (getRunId cfg st key) ≠ [])

/-- A stream just flushed and reset during a discontinuity sweep, before the
run counter is bumped: flag set, batch drained. -/
def DoneKey (st : AppenderState) (key : StreamKey) : Prop :=
  ∀ b, alookup st.pending key = some b → b.isFirstChunk = true ∧ b.isEmpty = true

/-- The appender invariant. -/
def AppInv (cfg : AppenderCfg) (st : AppenderState) : Prop :=
  AppInvCore cfg st ∧ ∀ key, FirstCond cfg st key

/-- The invariant holding midway through a discontinuity sweep. -/
def MidInv (cfg : AppenderCfg) (st : AppenderState) : Prop :=
  AppInvCore cfg st ∧ ∀ key, FirstCond cfg st key ∨ DoneKey st key

/-- The chunk event a successful flush of `batch` under `key` appends (the
event of `writeBatch`, spelled with the pre-flush state, whose run counters
the flush does not change). -/
def flushEvent (cfg : AppenderCfg) (st : AppenderState) (key : StreamKey)
    (batch : PendingBatch) : ChunkEvent where
  key := key
  run := getRunId cfg st key
  path := makeGroupPath cfg st (trimmedRouteStr key.route) batch.streamMetadata.name key
  attrNames := if batch.isFirstChunk then metadataAttrNames cfg st key batch else []
  serial := batch.segmentMetadata.timeRefSerial
  sampleNumbers := batch.sampleNumbers
  timestamps := batch.timestamps
  cols := (validColumns cfg key batch.streamMetadata.name batch).map (fun v => v.2.2.name)

/-! ## Concrete scenario data -/

/-- A segment metadata value with empty `time_ref_serial`. -/
def seg0 : SegmentMetadata where
  samplingRate := 1000
  decimation := 1
  filterCutoff := 0
  filterType := 0
  timeRefEpoch := 0
  timeRefSerial := ""
  startTime := 0
  sampleNOffset := 0

/-- Stream metadata of the single scenario stream, named `vector`. -/
def strmVector : StreamMetadata where
  streamId := 1
  name := "vector"
  sampleSize := 4
  nColumns := 1
  totalSamples := 0

/-- Column metadata of an `f32` column named `x` at index 0. -/
def colX : ColumnMetadata where
  index := 0
  name := "x"
  units := ""
  description := ""
  dataType := .f32

/-- Column metadata of an `f32` column named `y` at index 0. -/
def colY : ColumnMetadata where
  index := 0
  name := "y"
  units := ""
  description := ""
  dataType := .f32

/-- A scenario sample of the `vector` stream with one column. -/
def mkSample (n : Nat) (b : Option BoundaryReason) (t : Rat) (c : ColumnMetadata) :
    Sample where
  n := n
  sessionId := 7
  stream := strmVector
  segment := seg0
  columns := [{ desc := c, value := .float (n : Rat) }]
  boundary := b
  timestampEnd := t

/-- The scenario stream key: stream 1 of the root device. -/
def keyRoot : StreamKey where
  route := []
  streamId := 1

/-- The appender configuration of spec scenario 4 (claim C3): no filter,
default batch size, split per stream, monotonic policy. -/
def cfgScenario4 : AppenderCfg where
  filter := none
  batchSize := 65536
  splitPolicy := .monotonic
  splitLevel := .perStream

/-- The four samples of spec scenario 4: `n = 0..3`, timestamps
`0, 0.001, 0.0005, 0.0015`, only `n = 2` carrying `TimeWentBackward`. -/
def opsScenario4 : List (Sample × StreamKey) :=
  [ (mkSample 0 (some .initial) 0 colX, keyRoot),
    (mkSample 1 none (1 / 1000) colX, keyRoot),
    (mkSample 2 (some .timeWentBackward) (1 / 2000) colX, keyRoot),
    (mkSample 3 none (3 / 2000) colX, keyRoot) ]

/-- An appender configured with the column filter `**/x` (claim C1's
counterexample: the single sample's only column, `y`, is filtered out). -/
def cfgFilterX : AppenderCfg where
  filter := some (ColumnFilter.mk' ("**/x"))
  batchSize := 65536
  splitPolicy := .continuous
  splitLevel := .nosplit

/-- The single-sample input whose only column `y` the `**/x` filter drops. -/
def opsFilteredOut : List (Sample × StreamKey) :=
  [ (mkSample 0 (some .initial) 0 colY, keyRoot) ]

/-- An appender configured with the `**/x` filter, batch size 1 and
per-stream monotonic splitting (claim C6's counterexample). -/
def cfgFilterXBatch1 : AppenderCfg where
  filter := some (ColumnFilter.mk' ("**/x"))
  batchSize := 1
  splitPolicy := .monotonic
  splitLevel := .perStream

/-- Two samples of one run: the first carries only the filtered-out column
`y`, the second (after a non-structural stream-metadata change, which the
monotonic policy does not split on) the surviving column `x`. -/
def opsFirstChunkFiltered : List (Sample × StreamKey) :=
  [ (mkSample 0 (some .initial) 0 colY, keyRoot),
    (mkSample 1 (some .streamMetadataChanged) (1 / 1000) colX, keyRoot) ]

/-- A pending batch holding exactly the first scenario sample (used to
witness the amended claim C1 at a concrete input). -/
def batchOneX : PendingBatch :=
  (PendingBatch.new (mkSample 0 (some .initial) 0 colX)).push
    (mkSample 0 (some .initial) 0 colX)

/-- A parsed sample of the stream named `vector` as `log_csv` sees it. -/
def csvSampleVec : CsvSample where
  streamId := 1
  streamName := "vector"
  colNames := ["x"]
  values := [.float 1]
  timestamp := 0

/-- A parsed sample of the stream named `accel` as `log_csv` sees it. -/
def csvSampleAccel : CsvSample where
  streamId := 2
  streamName := "accel"
  colNames := ["x"]
  values := [.float 1]
  timestamp := 0

/-! # Theorems -/

/-- C4: `ColumnFilter("vector")` matches `(route=/0/1, stream="vector",
col="x")` and not `(route=/, stream="accel", col="x")`;
`ColumnFilter("**/x")` matches `(route=/0, stream="vector", col="x")` and
not `(route=/0, stream="vector", col="y")`. -/
theorem claim_C4_filter_cases :
    (ColumnFilter.mk' ("vector")).matches [0, 1] "vector" "x" = true
    ∧ (ColumnFilter.mk' ("vector")).matches [] "accel" "x" = false
    ∧ (ColumnFilter.mk' ("**/x")).matches [0] "vector" "x" = true
    ∧ (ColumnFilter.mk' ("**/x")).matches [0] "vector" "y" = false :=
  ⟨rfl, rfl, rfl, rfl⟩

/-- C2: uploading a 721-byte image under the canonical reply timing (the
device's acknowledgments arrive only after the two-chunk window has filled,
so the one non-blocking receive reports `WouldBlock`, and then arrive in
order) sends ceil(721/288) = 3 chunks as `dev.firmware.upload` requests
with id equal to the chunk index: chunks 0 and 1 before any
acknowledgment, chunk 2 only after the acknowledgment of chunk 0; after
acknowledgments 1 and 2 the client issues `dev.firmware.upgrade`. -/
theorem claim_C2_upload_trace :
    runUpload 20 721 [.wouldBlock, .reply 0, .reply 1, .reply 2] =
      (.upgraded,
       [ .send ("dev.firmware.upload") 0 0 288,
         .send ("dev.firmware.upload") 1 288 576,
         .ack 0,
         .send ("dev.firmware.upload") 2 576 721,
         .ack 1, .ack 2,
         .rpcAction ("dev.firmware.upgrade") ])
    ∧ (721 + 288 - 1) / 288 = 3 :=
  ⟨rfl, rfl⟩

/-- C3: with split level PerStream and policy Monotonic, four samples with
`n = [0,1,2,3]`, of which only `n = 2` carries a `TimeWentBackward`
boundary, are written as samples 0,1 into the stream's `run_000000` group
and samples 2,3 into its `run_000001` group. -/
theorem claim_C3_perstream_monotonic_split :
    (runAppender cfgScenario4 opsScenario4).map (fun e => (e.path, e.sampleNumbers)) =
      [("/vector/run_000000", [0, 1]), ("/vector/run_000001", [2, 3])] :=
  rfl

/-- C9: `TioOpts::parse_route` is total and never surfaces a routing error:
whenever `DeviceRoute::from_str` fails it silently falls back to the root
route, and otherwise it returns exactly the parsed route. -/
theorem claim_C9_parse_route_total (s : String) :
    (∀ e, DeviceRoute.fromStr s = .error e → parseRoute s = DeviceRoute.rootRoute)
    ∧ (∀ r, DeviceRoute.fromStr s = .ok r → parseRoute s = r) := by
  constructor
  · intro e h
    simp [parseRoute, h]
  · intro r h
    simp [parseRoute, h]

/-- C9 witness: the syntactically invalid route string "bogus" falls back
to the root route, while "/0/1" parses to the route `[0, 1]`. -/
theorem claim_C9_witness :
    parseRoute ("bogus") = DeviceRoute.rootRoute ∧ parseRoute ("/0/1") = [0, 1] :=
  ⟨(claim_C9_parse_route_total ("bogus")).1 () rfl,
   (claim_C9_parse_route_total ("/0/1")).2 [0, 1] rfl⟩

/-- C1 counterexample: with the `**/x` filter configured, a non-empty batch
(one sample whose only column is `y`) is flushed by `finish`, yet nothing —
in particular neither a `time` nor a `sample_number` append — is written:
`write_batch` returns before touching the file when every data column is
filtered out. -/
theorem claim_C1_cex :
    (alookup (writeSamples cfgFilterX AppenderState.initial opsFilteredOut).pending
        keyRoot).map PendingBatch.length = some 1
    ∧ runAppender cfgFilterX opsFilteredOut = [] :=
  ⟨rfl, rfl⟩

/-- C6 counterexample: with the `**/x` filter, batch size 1 and per-stream
monotonic splitting, the first flushed chunk of run 0 (whose only column
`y` is filtered out) writes nothing, and the run's group is then created by
the second chunk with no attributes at all — the run's attributes are
written zero times, not exactly once on its first flushed chunk. -/
theorem claim_C6_cex :
    (runAppender cfgFilterXBatch1 opsFirstChunkFiltered).map
        (fun e => (e.path, e.run, e.attrNames, e.cols)) =
      [("/vector/run_000000", some 0, [], ["x"])] :=
  rfl

/-- C8 counterexample: in raw mode (neither `-d` nor `-m`), a log file
consisting of a single truncated frame makes `log-dump` fail rather than
complete successfully. -/
theorem claim_C8_cex : logDumpRaw [[1]] "/" none = .error () :=
  rfl

/-- The send step never changes the next expected acknowledgment. -/
theorem uploadTrySend_nextAck (len : Nat) (st : UploadState) :
    (uploadTrySend len st).1.nextAck = st.nextAck := by
  unfold uploadTrySend
  split <;> rfl

/-- C7: during firmware upload, whenever the upload loop is still active and
an `RpcReply` arrives whose id differs from the next unacknowledged chunk
index, or any `RpcError` reply arrives, the upload aborts instead of
continuing. -/
theorem claim_C7_out_of_order_aborts (fuel len : Nat) (st : UploadState)
    (env : List RecvEvent) (i : Nat)
    (hactive : uploadLoopActive st = true) (hid : i ≠ st.nextAck) :
    (uploadLoop (fuel + 1) len st (.reply i :: env)).1 = .aborted
    ∧ (uploadLoop (fuel + 1) len st (.rpcError :: env)).1 = .aborted := by
  have hb : (i == (uploadTrySend len st).1.nextAck) = false := by
    rw [uploadTrySend_nextAck]
    simpa using hid
  constructor
  · simp only [uploadLoop, hactive, if_true, hb, Bool.false_eq_true, if_false]
  · simp only [uploadLoop, hactive, if_true]

/-- C7 witness: with chunks 0 and 1 in flight, a reply carrying id 1 (out of
order) aborts the upload, as does an `RpcError` reply. -/
theorem claim_C7_witness :
    (uploadLoop 1 721 { nextSend := 2, nextAck := 0, moreToSend := true }
      [.reply 1]).1 = .aborted
    ∧ (uploadLoop 1 721 { nextSend := 2, nextAck := 0, moreToSend := true }
      [.rpcError]).1 = .aborted :=
  ⟨(claim_C7_out_of_order_aborts 0 721
      { nextSend := 2, nextAck := 0, moreToSend := true } [] 1 rfl (by decide)).1,
   (claim_C7_out_of_order_aborts 0 721
      { nextSend := 2, nextAck := 0, moreToSend := true } [] 1 rfl (by decide)).2⟩

/-- String append is associative. -/
theorem strAppend_assoc (a b c : String) : a ++ b ++ c = a ++ (b ++ c) := by
  cases a with
  | mk la =>
    cases b with
    | mk lb =>
      cases c with
      | mk lc =>
        show String.mk (la ++ lb ++ lc) = String.mk (la ++ (lb ++ lc))
        rw [List.append_assoc]

/-- Appending the empty string on the right is the identity. -/
theorem strAppend_empty (a : String) : a ++ "" = a := by
  cases a with
  | mk la =>
    show String.mk (la ++ []) = String.mk la
    rw [List.append_nil]

/-- The digit-accumulator loop never returns the empty list when started
with a non-empty accumulator. -/
theorem natCharsGo_ne_nil_acc (fuel n : Nat) (acc : List Char) (h : acc ≠ []) :
    natCharsGo fuel n acc ≠ [] := by
  induction fuel generalizing n acc with
  | zero => simpa [natCharsGo] using h
  | succ fuel ih =>
    unfold natCharsGo
    split
    · simp
    · exact ih _ _ (by simp)

/-- The decimal rendering of a natural number is never empty. -/
theorem natChars_ne_nil (n : Nat) : natChars n ≠ [] := by
  unfold natChars natCharsGo
  split
  · simp
  · exact natCharsGo_ne_nil_acc _ _ _ (by simp)

/-- The trimmed route string of a non-root route is non-empty. -/
theorem trimmedRouteStr_ne_empty (a : Nat) (rest : List Nat) :
    trimmedRouteStr (a :: rest) ≠ "" := by
  unfold trimmedRouteStr trimmedRouteChars
  intro h
  have hd : joinChar '/' ((a :: rest).map natChars) = [] := by
    have := congrArg String.data h
    simpa using this
  cases rest with
  | nil => exact natChars_ne_nil a (by simpa [joinChar] using hd)
  | cons b r => simp [joinChar] at hd

/-- Digit-count bound for the accumulator loop: a number below `10 ^ k`
contributes at most `k` digits. -/
theorem natCharsGo_length_le (k : Nat) : ∀ fuel n acc, n < 10 ^ k → 1 ≤ k →
    (natCharsGo fuel n acc).length ≤ k + acc.length := by
  induction k with
  | zero => intro _ _ _ _ hk; omega
  | succ k ih =>
    intro fuel n acc hn _
    cases fuel with
    | zero => simp [natCharsGo]
    | succ fuel =>
      unfold natCharsGo
      split
      · simp; omega
      · rename_i hge
        have h10 : 10 ≤ n := by omega
        have hk1 : 1 ≤ k := by
          by_contra hk0
          have : k = 0 := by omega
          subst this
          simp [pow_succ] at hn
          omega
        have hdiv : n / 10 < 10 ^ k := by
          rw [Nat.div_lt_iff_lt_mul (by norm_num)]
          calc n < 10 ^ (k + 1) := hn
            _ = 10 ^ k * 10 := by ring
        have := ih fuel (n / 10) (digitChar (n % 10) :: acc) hdiv hk1
        simp at this ⊢
        omega

/-- A natural number below `10 ^ 6` has at most six digits. -/
theorem natChars_length_le_six (n : Nat) (h : n < 1000000) :
    (natChars n).length ≤ 6 := by
  have : (natCharsGo (n + 1) n []).length ≤ 6 + ([] : List Char).length :=
    natCharsGo_length_le 6 (n + 1) n [] (by simpa using h) (by omega)
  simpa [natChars] using this

/-- C5: for every stream key, split level and run state, the group path the
appender builds follows the spec's template — the route string is the
`/`-joined route indices, the root route contributes no route segment, and
run numbers are zero-padded to six digits (numbers below `10^6` rendering
as exactly six characters). -/
theorem claim_C5_group_path_template (cfg : AppenderCfg) (st : AppenderState)
    (key : StreamKey) (streamName : String) :
    makeGroupPath cfg st (trimmedRouteStr key.route) streamName key
      = groupPathSpec cfg.splitLevel key.route streamName ((getRunId cfg st key).getD 0)
    ∧ ∀ n, n < 1000000 → (pad6 n).length = 6 := by
  constructor
  · rcases key with ⟨route, sid⟩
    cases route with
    | nil =>
      cases h : cfg.splitLevel <;>
        simp [makeGroupPath, groupPathSpec, routeSegment, getRunId, h,
          trimmedRouteStr, trimmedRouteChars, joinChar, strAppend_empty]
    | cons a rest =>
      have hne := trimmedRouteStr_ne_empty a rest
      cases h : cfg.splitLevel <;>
        simp [makeGroupPath, groupPathSpec, routeSegment, getRunId, h, hne,
          strAppend_assoc]
  · intro n hn
    have hlen := natChars_length_le_six n hn
    show (String.mk (List.replicate (6 - (natChars n).length) '0' ++ natChars n)).length = 6
    have : (String.mk (List.replicate (6 - (natChars n).length) '0' ++ natChars n)).length
        = (List.replicate (6 - (natChars n).length) '0' ++ natChars n).length := rfl
    rw [this]
    simp
    omega

/-- C5 witness: at the per-stream level with the root route and a fresh
state, the built path agrees with the spec template, and the run number 3
pads to the six characters `000003`. -/
theorem claim_C5_witness :
    makeGroupPath cfgScenario4 AppenderState.initial (trimmedRouteStr keyRoot.route)
        "vector" keyRoot
      = groupPathSpec RunSplitLevel.perStream keyRoot.route "vector" 0
    ∧ (pad6 3).length = 6 :=
  ⟨(claim_C5_group_path_template cfgScenario4 AppenderState.initial keyRoot "vector").1,
   (claim_C5_group_path_template cfgScenario4 AppenderState.initial keyRoot "vector").2
     3 (by decide)⟩

/-- C1 (amended): for every flushed non-empty batch that retains at least
one data column after filtering, `write_batch` appends exactly one chunk to
the file, whose `sample_number` and `time` rows are the batch's rows, and
whose column datasets are exactly the surviving columns — filtered-out
columns produce no dataset. -/
theorem claim_C1_amended (cfg : AppenderCfg) (st : AppenderState) (key : StreamKey)
    (batch : PendingBatch)
    (hne : batch.isEmpty = false)
    (hvalid : (validColumns cfg key batch.streamMetadata.name batch).isEmpty = false) :
    ∃ ev : ChunkEvent,
      (writeBatch cfg st key batch).events = st.events ++ [ev]
      ∧ ev.sampleNumbers = batch.sampleNumbers
      ∧ ev.timestamps = batch.timestamps
      ∧ ev.cols = (validColumns cfg key batch.streamMetadata.name batch).map
          (fun v => v.2.2.name) := by
  simp only [writeBatch, hne, hvalid, Bool.false_eq_true, if_false]
  exact ⟨_, rfl, rfl, rfl, rfl⟩

/-- C1 amended witness: flushing the concrete one-sample batch with no
filter configured appends one chunk carrying the batch's sample numbers,
timestamps and its single surviving column. -/
theorem claim_C1_amended_witness :
    ∃ ev : ChunkEvent,
      (writeBatch cfgScenario4 AppenderState.initial keyRoot batchOneX).events
        = AppenderState.initial.events ++ [ev]
      ∧ ev.sampleNumbers = batchOneX.sampleNumbers
      ∧ ev.timestamps = batchOneX.timestamps
      ∧ ev.cols = (validColumns cfgScenario4 keyRoot batchOneX.streamMetadata.name
          batchOneX).map (fun v => v.2.2.name) :=
  claim_C1_amended cfgScenario4 AppenderState.initial keyRoot batchOneX rfl rfl

/-- Parsed-mode decoding processes exactly the cleanly-decodable prefix of a
file, whatever the parser state. -/
theorem logDumpParsedFile_snd {σ : Type} (pnew : σ) (pstep : σ → Packet → σ × List Nat) :
    ∀ fuel (parsers : List (DeviceRoute × σ)) b,
      (logDumpParsedFile pnew pstep parsers fuel b).2 = decodePrefix fuel b := by
  intro fuel
  induction fuel with
  | zero => intro parsers b; rfl
  | succ fuel ih =>
    intro parsers b
    by_cases hb : b = []
    · simp [logDumpParsedFile, decodePrefix, hb]
    · cases hdes : Packet.deserialize b with
      | error e => simp [logDumpParsedFile, decodePrefix, hb, hdes]
      | ok pl => simp [logDumpParsedFile, decodePrefix, hb, hdes, ih]

/-- The parsed-mode fold accumulates the decodable prefixes of all files. -/
theorem logDumpParsed_fold {σ : Type} (pnew : σ) (pstep : σ → Packet → σ × List Nat) :
    ∀ (files : List (List Nat)) (parsers : List (DeviceRoute × σ)) (acc : List Packet),
      (files.foldl
        (fun acc f =>
          let next := logDumpParsedFile pnew pstep acc.1 f.length f
          (next.1, acc.2 ++ next.2))
        (parsers, acc)).2
      = acc ++ files.flatMap (fun f => decodePrefix f.length f) := by
  intro files
  induction files with
  | nil => intro parsers acc; simp
  | cons f fs ih =>
    intro parsers acc
    simp only [List.foldl_cons, List.flatMap_cons]
    rw [ih]
    rw [logDumpParsedFile_snd]
    rw [List.append_assoc]

/-- Raw-mode decoding of one file fails exactly when the file does not
decode cleanly to its end. -/
theorem logDumpRawFile_error_iff (target : DeviceRoute) (depth : Option Nat) :
    ∀ fuel b, (logDumpRawFile target depth fuel b = .error ())
      ↔ decodeAll fuel b = none := by
  intro fuel
  induction fuel with
  | zero =>
    intro b
    by_cases hb : b = [] <;> simp [logDumpRawFile, decodeAll, hb]
  | succ fuel ih =>
    intro b
    by_cases hb : b = []
    · simp [logDumpRawFile, decodeAll, hb]
    · cases hdes : Packet.deserialize b with
      | error e => simp [logDumpRawFile, decodeAll, hb, hdes]
      | ok pl =>
        simp only [logDumpRawFile, decodeAll, hb, if_false, hdes]
        cases hrec : logDumpRawFile target depth fuel (b.drop pl.2) with
        | error e =>
          cases e
          have hbad := (ih (b.drop pl.2)).mp hrec
          simp [hrec, hbad]
        | ok printed =>
          have hne : ¬ decodeAll fuel (b.drop pl.2) = none := by
            intro h
            have := (ih (b.drop pl.2)).mpr h
            rw [this] at hrec
            exact Except.noConfusion hrec
          cases hda : decodeAll fuel (b.drop pl.2) with
          | none => exact absurd hda hne
          | some pkts =>
            simp only [hda, Option.map_some]
            constructor
            · intro h
              split at h <;> exact Except.noConfusion h
            · intro h
              exact Option.noConfusion h

/-- An errored raw-mode fold stays errored. -/
theorem logDumpRaw_fold_error (target : DeviceRoute) (depth : Option Nat) :
    ∀ (files : List (List Nat)),
      (files.foldl
        (fun acc f =>
          match acc with
          | .error e => .error e
          | .ok printed =>
            match logDumpRawFile target depth f.length f with
            | .error e => .error e
            | .ok more => .ok (printed ++ more))
        (.error () : Except Unit (List Packet)))
      = .error () := by
  intro files
  induction files with
  | nil => rfl
  | cons f fs ih => simpa using ih

/-- The raw-mode fold fails exactly when some file does not decode cleanly. -/
theorem logDumpRaw_fold_iff (target : DeviceRoute) (depth : Option Nat) :
    ∀ (files : List (List Nat)) (printed : List Packet),
      (files.foldl
        (fun acc f =>
          match acc with
          | .error e => .error e
          | .ok printed =>
            match logDumpRawFile target depth f.length f with
            | .error e => .error e
            | .ok more => .ok (printed ++ more))
        (.ok printed : Except Unit (List Packet))
        = .error ())
      ↔ ∃ f ∈ files, decodeAll f.length f = none := by
  intro files
  induction files with
  | nil =>
    intro printed
    simp
  | cons f fs ih =>
    intro printed
    simp only [List.foldl_cons, List.mem_cons]
    cases hfile : logDumpRawFile target depth f.length f with
    | error e =>
      cases e
      simp only [logDumpRaw_fold_error]
      constructor
      · intro _
        exact ⟨f, Or.inl rfl, (logDumpRawFile_error_iff target depth f.length f).mp hfile⟩
      · intro _
        trivial
    | ok more =>
      have hclean : ¬ decodeAll f.length f = none := by
        intro h
        have := (logDumpRawFile_error_iff target depth f.length f).mpr h
        rw [this] at hfile
        exact Except.noConfusion hfile
      rw [ih]
      constructor
      · intro ⟨g, hg, hbad⟩
        exact ⟨g, Or.inr hg, hbad⟩
      · intro ⟨g, hg, hbad⟩
        cases hg with
        | inl h => exact absurd (h ▸ hbad) hclean
        | inr h => exact ⟨g, h, hbad⟩

/-- C8 (amended): over non-empty input file lists, parsed-mode `log-dump`
always succeeds and processes exactly the cleanly-decodable prefix of each
file (stopping at a partial or malformed frame), for any parser behaviour;
raw-mode `log-dump` fails precisely when some input file fails to decode
cleanly to its end — a trailing partial frame makes the raw-mode command
fail rather than complete successfully. -/
theorem claim_C8_amended {σ : Type} (pnew : σ) (pstep : σ → Packet → σ × List Nat)
    (files : List (List Nat)) (sensor : String) (depth : Option Nat)
    (hne : files ≠ []) :
    logDumpParsed pnew pstep files
      = .ok (files.flatMap (fun f => decodePrefix f.length f))
    ∧ ((logDumpRaw files sensor depth = .error ())
        ↔ ∃ f ∈ files, decodeAll f.length f = none) := by
  constructor
  · unfold logDumpParsed
    rw [if_neg hne]
    rw [logDumpParsed_fold]
    rfl
  · unfold logDumpRaw
    rw [if_neg hne]
    exact logDumpRaw_fold_iff (parseRoute sensor) depth files []

/-- C8 amended witness: on the single file holding one truncated byte,
parsed mode succeeds having processed no packet, while raw mode fails
because the file does not decode cleanly. -/
theorem claim_C8_amended_witness :
    (logDumpParsed () (fun s _ => (s, ([] : List Nat))) [[1]]
      = .ok (([[1]] : List (List Nat)).flatMap (fun f => decodePrefix f.length f)))
    ∧ ((logDumpRaw [[1]] "/" none = .error ())
        ↔ ∃ f ∈ ([[1]] : List (List Nat)), decodeAll f.length f = none) :=
  claim_C8_amended () (fun s _ => (s, [])) [[1]] "/" none (by decide)

/-- The characterization of the CSV fold: it records whether any sample
matched and appends exactly the spec-level rows. -/
theorem csvFold_char (sa : String) :
    ∀ (samples : List CsvSample) (hw : Bool) (lines : List CsvLine),
      samples.foldl (csvStep sa) (hw, lines)
        = (hw || samples.any (csvSampleMatches sa), lines ++ csvEmit sa hw samples) := by
  intro samples
  induction samples with
  | nil => intro hw lines; simp [csvEmit]
  | cons s ss ih =>
    intro hw lines
    cases hm : csvSampleMatches sa s with
    | false =>
      simp only [List.foldl_cons, List.any_cons, hm, Bool.false_or, csvEmit]
      simp only [csvStep, hm, Bool.false_eq_true, if_false]
      exact ih hw lines
    | true =>
      cases hw with
      | false =>
        simp only [List.foldl_cons, List.any_cons, hm, Bool.true_or, Bool.false_or,
          csvEmit, csvStep, Bool.false_eq_true, if_false, if_true]
        rw [ih]
        simp
      | true =>
        simp only [List.foldl_cons, List.any_cons, hm, Bool.true_or, csvEmit,
          csvStep, if_true]
        rw [ih]
        simp

/-- The `log_csv` loop over the input stream equals the single fold over the
route-matching samples. -/
theorem csvRun_eq_fold (sa : String) (target : DeviceRoute) :
    ∀ (inputs : List (DeviceRoute × List CsvSample)) (acc : Bool × List CsvLine),
      inputs.foldl
          (fun acc p =>
            if p.1 = target then p.2.foldl (csvStep sa) acc else acc)
          acc
        = (csvRelevant target inputs).foldl (csvStep sa) acc := by
  intro inputs
  induction inputs with
  | nil => intro acc; simp [csvRelevant]
  | cons p ps ih =>
    intro acc
    by_cases hp : p.1 = target
    · simp only [List.foldl_cons, hp, if_true]
      rw [ih]
      have : csvRelevant target (p :: ps) = p.2 ++ csvRelevant target ps := by
        simp [csvRelevant, List.filter_cons, hp]
      rw [this, List.foldl_append]
    · simp only [List.foldl_cons, hp, if_false]
      rw [ih]
      have : csvRelevant target (p :: ps) = csvRelevant target ps := by
        simp [csvRelevant, List.filter_cons, hp]
      rw [this]

/-- `csvRun` in closed form. -/
theorem csvRun_char (sa : String) (target : DeviceRoute)
    (inputs : List (DeviceRoute × List CsvSample)) :
    csvRun sa target inputs
      = ((csvRelevant target inputs).any (csvSampleMatches sa),
         csvEmit sa false (csvRelevant target inputs)) := by
  unfold csvRun
  rw [csvRun_eq_fold, csvFold_char]
  simp

/-- `csvAnyMatch` agrees with matching over the route-relevant samples. -/
theorem csvAnyMatch_eq (sa : String) (target : DeviceRoute) :
    ∀ inputs, csvAnyMatch sa target inputs
      = (csvRelevant target inputs).any (csvSampleMatches sa) := by
  intro inputs
  induction inputs with
  | nil => rfl
  | cons p ps ih =>
    by_cases hp : p.1 = target
    · simp [csvAnyMatch, csvRelevant, List.filter_cons, hp, List.any_cons] at ih ⊢
    · simp [csvAnyMatch, csvRelevant, List.filter_cons, hp, List.any_cons] at ih ⊢

/-- Once the header is written the emitted rows contain no further header. -/
theorem csvEmit_headerless (sa : String) :
    ∀ l, headerCount (csvEmit sa true l) = 0 := by
  intro l
  induction l with
  | nil => rfl
  | cons s ss ih =>
    cases hm : csvSampleMatches sa s <;>
      simp [csvEmit, hm, headerCount, List.filter_cons] at ih ⊢ <;>
      simpa [headerCount] using ih

/-- When a matching sample exists, the emitted rows start with its header
row and contain exactly one header. -/
theorem csvEmit_first_header (sa : String) :
    ∀ l s, l.find? (csvSampleMatches sa) = some s →
      (csvEmit sa false l).head? = some (.header ("time" :: s.colNames))
      ∧ headerCount (csvEmit sa false l) = 1 := by
  intro l
  induction l with
  | nil => intro s h; exact absurd h (by simp)
  | cons x xs ih =>
    intro s h
    cases hm : csvSampleMatches sa x with
    | true =>
      rw [List.find?_cons_of_pos _ hm] at h
      cases h
      constructor
      · simp [csvEmit, hm]
      · simp [csvEmit, hm, headerCount, List.filter_cons]
        have := csvEmit_headerless sa xs
        simpa [headerCount] using this
    | false =>
      rw [List.find?_cons_of_neg _ (by simp [hm])] at h
      have := ih s h
      simpa [csvEmit, hm] using this

/-- C10: if `log-csv` finds no sample matching the requested stream and
route across all inputs, it deletes the CSV file it created and returns
failure, leaving no file behind; and the header row is written only upon
the first matching sample — it is the first output row, written exactly
once, carrying the first matching sample's column names. -/
theorem claim_C10_log_csv (sa : String) (target : DeviceRoute)
    (inputs : List (DeviceRoute × List CsvSample)) :
    (csvAnyMatch sa target inputs = false →
      logCsv sa target inputs = (none, false))
    ∧ (∀ s, csvFirstMatch sa target inputs = some s →
      logCsv sa target inputs = (some (csvRun sa target inputs).2, true)
      ∧ (csvRun sa target inputs).2.head? = some (.header ("time" :: s.colNames))
      ∧ headerCount (csvRun sa target inputs).2 = 1) := by
  constructor
  · intro hnone
    rw [csvAnyMatch_eq] at hnone
    unfold logCsv
    rw [csvRun_char]
    simp [hnone]
  · intro s hfind
    have hany : (csvRelevant target inputs).any (csvSampleMatches sa) = true :=
      List.any_eq_true.mpr
        ⟨s, List.mem_of_find?_eq_some hfind, List.find?_some hfind⟩
    have hhdr := csvEmit_first_header sa (csvRelevant target inputs) s hfind
    refine ⟨?_, ?_, ?_⟩
    · unfold logCsv
      rw [csvRun_char]
      simp [hany, csvRun_char]
    · rw [csvRun_char]
      exact hhdr.1
    · rw [csvRun_char]
      exact hhdr.2

/-- C10 witness: with stream argument `vector` and the root route, an input
holding only an `accel` sample yields a deleted file and failure, while an
input holding a `vector` sample writes the header row first. -/
theorem claim_C10_witness :
    logCsv "vector" [] [([], [csvSampleAccel])] = (none, false)
    ∧ (csvRun "vector" [] [([], [csvSampleVec])]).2.head?
        = some (.header ("time" :: csvSampleVec.colNames)) :=
  ⟨(claim_C10_log_csv "vector" [] [([], [csvSampleAccel])]).1 rfl,
   ((claim_C10_log_csv "vector" [] [([], [csvSampleVec])]).2 csvSampleVec rfl).2.1⟩

/-! ## Association-list lemmas -/

theorem alookup_aset_self {K V : Type} [DecidableEq K] (l : List (K × V)) (k : K)
    (v : V) : alookup (aset l k v) k = some v := by
  induction l with
  | nil => simp [aset, alookup]
  | cons p rest ih =>
    by_cases h : k = p.1
    · simp [aset, alookup, h]
    · simp [aset, alookup, h, ih]

theorem alookup_aset_ne {K V : Type} [DecidableEq K] (l : List (K × V)) (k k' : K)
    (v : V) (h : k' ≠ k) : alookup (aset l k v) k' = alookup l k' := by
  induction l with
  | nil => simp [aset, alookup, h]
  | cons p rest ih =>
    by_cases hk : k = p.1
    · subst hk
      simp [aset, alookup, h]
    · by_cases hk' : k' = p.1
      · simp [aset, alookup, hk, hk']
      · simp [aset, alookup, hk, hk', ih]

theorem alookup_adjust_self {K V : Type} [DecidableEq K] (l : List (K × V)) (k : K)
    (f : V → V) : alookup (adjust l k f) k = (alookup l k).map f := by
  induction l with
  | nil => simp [adjust, alookup]
  | cons p rest ih =>
    by_cases h : k = p.1
    · simp [adjust, alookup, h]
    · simp [adjust, alookup, h, ih]

theorem alookup_adjust_ne {K V : Type} [DecidableEq K] (l : List (K × V)) (k k' : K)
    (f : V → V) (h : k' ≠ k) : alookup (adjust l k f) k' = alookup l k' := by
  induction l with
  | nil => simp [adjust, alookup]
  | cons p rest ih =>
    by_cases hk : k = p.1
    · subst hk
      simp [adjust, alookup, h]
    · by_cases hk' : k' = p.1
      · simp [adjust, alookup, hk, hk']
      · simp [adjust, alookup, hk, hk', ih]

theorem alookup_eq_none_iff {K V : Type} [DecidableEq K] (l : List (K × V)) (k : K) :
    alookup l k = none ↔ k ∉ l.map Prod.fst := by
  induction l with
  | nil => simp [alookup]
  | cons p rest ih =>
    by_cases h : k = p.1
    · simp [alookup, h]
    · simp [alookup, h, ih]

theorem aset_map_fst_mem {K V : Type} [DecidableEq K] (l : List (K × V)) (k : K)
    (v : V) (h : k ∈ l.map Prod.fst) : (aset l k v).map Prod.fst = l.map Prod.fst := by
  induction l with
  | nil => simp at h
  | cons p rest ih =>
    by_cases hk : k = p.1
    · simp [aset, hk]
    · have h2 : k ∈ p.1 :: rest.map Prod.fst := by
        rw [List.map_cons] at h
        exact h
      have h3 : k ∈ rest.map Prod.fst := by
        rcases List.mem_cons.mp h2 with h1 | h1
        · exact absurd h1 hk
        · exact h1
      simp only [aset, if_neg hk, List.map_cons, ih h3]

theorem aset_map_fst_not_mem {K V : Type} [DecidableEq K] (l : List (K × V)) (k : K)
    (v : V) (h : k ∉ l.map Prod.fst) :
    (aset l k v).map Prod.fst = l.map Prod.fst ++ [k] := by
  induction l with
  | nil => simp [aset]
  | cons p rest ih =>
    have h2 : ¬(k = p.1 ∨ k ∈ rest.map Prod.fst) := by
      intro hh
      rw [List.map_cons] at h
      exact h (List.mem_cons.mpr hh)
    push_neg at h2
    simp only [aset, if_neg h2.1, List.map_cons, ih h2.2, List.cons_append]

theorem adjust_map_fst {K V : Type} [DecidableEq K] (l : List (K × V)) (k : K)
    (f : V → V) : (adjust l k f).map Prod.fst = l.map Prod.fst := by
  induction l with
  | nil => rfl
  | cons p rest ih =>
    by_cases hk : k = p.1
    · simp [adjust, hk]
    · simp [adjust, hk, ih]

theorem alookup_orInsert_ne {K V : Type} [DecidableEq K] (l : List (K × V)) (k k' : K)
    (v : V) (h : k' ≠ k) : alookup (orInsert l k v) k' = alookup l k' := by
  induction l with
  | nil => simp [orInsert, alookup, h]
  | cons p rest ih =>
    by_cases hk : k = p.1
    · simp [orInsert, hk]
    · by_cases hk' : k' = p.1
      · simp [orInsert, alookup, hk, hk']
      · simp [orInsert, alookup, hk, hk', ih]

theorem alookup_orInsert_self {K V : Type} [DecidableEq K] (l : List (K × V))
    (k : K) (v : V) : alookup (orInsert l k v) k = some ((alookup l k).getD v) := by
  induction l with
  | nil => simp [orInsert, alookup]
  | cons p rest ih =>
    by_cases hp : k = p.1
    · simp [orInsert, hp, alookup]
    · simp [orInsert, hp, alookup, ih]

theorem orInsert_ne_nil {K V : Type} [DecidableEq K] (l : List (K × V)) (k : K)
    (v : V) : orInsert l k v ≠ [] := by
  cases l with
  | nil => simp [orInsert]
  | cons p rest =>
    by_cases hp : k = p.1 <;> simp [orInsert, hp]

theorem adjust_ne_nil {K V : Type} [DecidableEq K] (l : List (K × V)) (k : K)
    (f : V → V) (h : l ≠ []) : adjust l k f ≠ [] := by
  cases l with
  | nil => exact absurd rfl h
  | cons p rest =>
    by_cases hp : k = p.1 <;> simp [adjust, hp]

/-! ## Event-trace lemmas -/

theorem evsFor_nil (key : StreamKey) (rt : Option Nat) : evsFor [] key rt = [] := rfl

theorem evsFor_append_one (evs : List ChunkEvent) (ev : ChunkEvent) (key : StreamKey)
    (rt : Option Nat) :
    evsFor (evs ++ [ev]) key rt
      = evsFor evs key rt ++ (if ev.key = key ∧ ev.run = rt then [ev] else []) := by
  unfold evsFor
  rw [List.filter_append]
  congr 1
  by_cases h : ev.key = key ∧ ev.run = rt
  · simp [h.1, h.2]
  · rw [if_neg h]
    rcases not_and_or.mp h with h' | h' <;> simp [h']

theorem evsFor_eq_nil_of_forall (evs : List ChunkEvent) (key : StreamKey)
    (rt : Option Nat) (h : ∀ e ∈ evs, ¬(e.key = key ∧ e.run = rt)) :
    evsFor evs key rt = [] := by
  unfold evsFor
  rw [List.filter_eq_nil_iff]
  intro e he
  simpa using h e he

theorem wellFormedRun_singleton (lvl : RunSplitLevel) (ev : ChunkEvent)
    (h : ev.attrNames = expectedAttrs lvl ev.serial) :
    WellFormedRun lvl [ev] := by
  exact ⟨h, by simp⟩

theorem wellFormedRun_append (lvl : RunSplitLevel) (evs : List ChunkEvent)
    (ev : ChunkEvent) (hw : WellFormedRun lvl evs) (hne : evs ≠ [])
    (h : ev.attrNames = []) : WellFormedRun lvl (evs ++ [ev]) := by
  cases evs with
  | nil => exact absurd rfl hne
  | cons e rest =>
    refine ⟨hw.1, ?_⟩
    intro e' he'
    have he2 : e' ∈ rest ++ [ev] := by simpa using he'
    rcases List.mem_append.mp he2 with h' | h'
    · exact hw.2 e' h'
    · rw [List.mem_singleton.mp h']
      exact h

/-! ## State-shape congruence lemmas -/

theorem getRunId_congr (cfg : AppenderCfg) (st st' : AppenderState) (key : StreamKey)
    (h1 : st.streamRuns = st'.streamRuns) (h2 : st.deviceRuns = st'.deviceRuns)
    (h3 : st.globalRun = st'.globalRun) :
    getRunId cfg st key = getRunId cfg st' key := by
  cases h : cfg.splitLevel <;> simp [getRunId, h, h1, h2, h3]

theorem eventRunLe_congr (cfg : AppenderCfg) (st st' : AppenderState) (e : ChunkEvent)
    (h1 : st.streamRuns = st'.streamRuns) (h2 : st.deviceRuns = st'.deviceRuns)
    (h3 : st.globalRun = st'.globalRun) (h : EventRunLe cfg st e) :
    EventRunLe cfg st' e := by
  cases hl : cfg.splitLevel <;>
    simp [EventRunLe, hl, h1, h2, h3] at h ⊢ <;> exact h

theorem metadataAttrNames_eq (cfg : AppenderCfg) (st : AppenderState)
    (key : StreamKey) (batch : PendingBatch) :
    metadataAttrNames cfg st key batch
      = expectedAttrs cfg.splitLevel batch.segmentMetadata.timeRefSerial := by
  cases h : cfg.splitLevel <;>
    simp [metadataAttrNames, expectedAttrs, getRunId, h]

theorem validColumns_nofilter_ne (cfg : AppenderCfg) (key : StreamKey) (name : String)
    (batch : PendingBatch) (hf : cfg.filter = none) (hwf : BatchWf batch)
    (hne : batch.timestamps ≠ []) :
    (validColumns cfg key name batch).isEmpty = false := by
  have hcols := hwf.2 hne
  cases hc : batch.columns with
  | nil => exact absurd hc hcols
  | cons p rest =>
    have hl : (alookup batch.columns p.1).isSome = true := by
      rw [hc]
      simp [alookup]
    have hm := hwf.1 p.1 hl
    unfold validColumns
    rw [hc]
    cases hmm : alookup batch.columnMetadata p.1 with
    | none => rw [hmm] at hm; simp at hm
    | some meta => simp [List.filterMap_cons, hmm, filterAllows, hf]

theorem mem_of_alookup_some {K V : Type} [DecidableEq K] {l : List (K × V)} {k : K}
    {v : V} (h : alookup l k = some v) : k ∈ l.map Prod.fst := by
  by_contra hmem
  rw [(alookup_eq_none_iff l k).mpr hmem] at h
  exact Option.noConfusion h

theorem makeGroupPath_congr (cfg : AppenderCfg) (st st' : AppenderState)
    (routeStr streamName : String) (key : StreamKey)
    (h1 : st.streamRuns = st'.streamRuns) (h2 : st.deviceRuns = st'.deviceRuns)
    (h3 : st.globalRun = st'.globalRun) :
    makeGroupPath cfg st routeStr streamName key
      = makeGroupPath cfg st' routeStr streamName key := by
  cases h : cfg.splitLevel <;> simp [makeGroupPath, h, h1, h2, h3]

theorem drain_fst (b : PendingBatch) : b.drain.1 = b := rfl

theorem drain_snd_isFirstChunk (b : PendingBatch) : b.drain.2.isFirstChunk = false := rfl

theorem drain_snd_timestamps (b : PendingBatch) : b.drain.2.timestamps = [] := rfl

theorem drain_snd_columns (b : PendingBatch) : b.drain.2.columns = [] := rfl

/-- A non-empty flush appends exactly the `flushEvent` chunk and drains the
pending batch; nothing else in the state changes. -/
theorem flushStream_eq (cfg : AppenderCfg) (st : AppenderState) (key : StreamKey)
    (batch : PendingBatch) (hp : alookup st.pending key = some batch)
    (hne : batch.isEmpty = false)
    (hvalid : (validColumns cfg key batch.streamMetadata.name batch).isEmpty = false) :
    flushStream cfg st key =
      { pending := aset st.pending key batch.drain.2,
        streamRuns := st.streamRuns,
        deviceRuns := st.deviceRuns,
        globalRun := st.globalRun,
        events := st.events ++ [flushEvent cfg st key batch] } := by
  unfold flushStream
  rw [hp]
  simp only [hne, Bool.false_eq_true, if_false]
  unfold writeBatch
  rw [drain_fst]
  simp only [hne, Bool.false_eq_true, if_false, hvalid]
  congr 2

theorem flushEvent_key (cfg : AppenderCfg) (st : AppenderState) (key : StreamKey)
    (batch : PendingBatch) : (flushEvent cfg st key batch).key = key := rfl

theorem flushEvent_run (cfg : AppenderCfg) (st : AppenderState) (key : StreamKey)
    (batch : PendingBatch) :
    (flushEvent cfg st key batch).run = getRunId cfg st key := rfl

theorem flushEvent_attrs_first (cfg : AppenderCfg) (st : AppenderState)
    (key : StreamKey) (batch : PendingBatch) (h : batch.isFirstChunk = true) :
    (flushEvent cfg st key batch).attrNames
      = expectedAttrs cfg.splitLevel (flushEvent cfg st key batch).serial := by
  show (if batch.isFirstChunk then metadataAttrNames cfg st key batch else [])
      = expectedAttrs cfg.splitLevel batch.segmentMetadata.timeRefSerial
  rw [h, if_pos rfl, metadataAttrNames_eq]

theorem flushEvent_attrs_rest (cfg : AppenderCfg) (st : AppenderState)
    (key : StreamKey) (batch : PendingBatch) (h : batch.isFirstChunk = false) :
    (flushEvent cfg st key batch).attrNames = [] := by
  show (if batch.isFirstChunk then metadataAttrNames cfg st key batch else []) = []
  rw [h]
  simp

/-- The `flushEvent` itself respects the run bound of the pre-flush state. -/
theorem flushEvent_runLe (cfg : AppenderCfg) (st : AppenderState) (key : StreamKey)
    (batch : PendingBatch) : EventRunLe cfg st (flushEvent cfg st key batch) := by
  cases hl : cfg.splitLevel <;>
    simp [EventRunLe, hl, flushEvent, getRunId]

/-- The flush of one stream: the invariant core is preserved, the flushed
key's bookkeeping is re-established, and everything else — other keys'
batches and events, the run counters, the key set — is untouched. -/
theorem flushStream_step (cfg : AppenderCfg) (st : AppenderState) (key : StreamKey)
    (hf : cfg.filter = none) (hcore : AppInvCore cfg st)
    (hfcd : FirstCond cfg st key ∨ DoneKey st key) :
    AppInvCore cfg (flushStream cfg st key)
    ∧ (FirstCond cfg st key → FirstCond cfg (flushStream cfg st key) key)
    ∧ (DoneKey st key → DoneKey (flushStream cfg st key) key)
    ∧ (∀ k', k' ≠ key →
        alookup (flushStream cfg st key).pending k' = alookup st.pending k')
    ∧ (∀ k' rt, k' ≠ key →
        evsFor (flushStream cfg st key).events k' rt = evsFor st.events k' rt)
    ∧ (flushStream cfg st key).streamRuns = st.streamRuns
    ∧ (flushStream cfg st key).deviceRuns = st.deviceRuns
    ∧ (flushStream cfg st key).globalRun = st.globalRun
    ∧ (∀ k', alookup (flushStream cfg st key).pending k' = none
        ↔ alookup st.pending k' = none) := by
  cases hp : alookup st.pending key with
  | none =>
    have hid : flushStream cfg st key = st := by
      simp [flushStream, hp]
    rw [hid]
    exact ⟨hcore, fun h => h, fun h => h, fun _ _ => rfl, fun _ _ _ => rfl,
      rfl, rfl, rfl, fun _ => Iff.rfl⟩
  | some batch =>
    by_cases hemp : batch.isEmpty = true
    · have hid : flushStream cfg st key = st := by
        simp [flushStream, hp, hemp]
      rw [hid]
      exact ⟨hcore, fun h => h, fun h => h, fun _ _ => rfl, fun _ _ _ => rfl,
        rfl, rfl, rfl, fun _ => Iff.rfl⟩
    · have hfc : FirstCond cfg st key := by
        rcases hfcd with h | h
        · exact h
        · exact absurd ((h batch hp).2) hemp
      have hemp' : batch.isEmpty = false := by
        cases h : batch.isEmpty with
        | true => exact absurd h hemp
        | false => rfl
      have hts : batch.timestamps ≠ [] := by
        intro h
        exact hemp (by simp [PendingBatch.isEmpty, h])
      have hbwf := hcore.batchWf key batch hp
      have hvalid := validColumns_nofilter_ne cfg key batch.streamMetadata.name batch
        hf hbwf hts
      have heq := flushStream_eq cfg st key batch hp hemp' hvalid
      rw [heq]
      have hkmem : key ∈ st.pending.map Prod.fst := mem_of_alookup_some hp
      have hgr : getRunId cfg
          ({ pending := aset st.pending key batch.drain.2,
             streamRuns := st.streamRuns, deviceRuns := st.deviceRuns,
             globalRun := st.globalRun,
             events := st.events ++ [flushEvent cfg st key batch] } : AppenderState) key
          = getRunId cfg st key := getRunId_congr cfg _ st key rfl rfl rfl
      refine ⟨?_, ?_, ?_, ?_, ?_, rfl, rfl, rfl, ?_⟩
      · -- AppInvCore
        refine ⟨?_, ?_, ?_, ?_, ?_⟩
        · show (List.map Prod.fst (aset st.pending key batch.drain.2)).Nodup
          rw [aset_map_fst_mem _ _ _ hkmem]
          exact hcore.nodup
        · intro k' rt
          show WellFormedRun cfg.splitLevel
            (evsFor (st.events ++ [flushEvent cfg st key batch]) k' rt)
          rw [evsFor_append_one]
          by_cases hcond : (flushEvent cfg st key batch).key = k'
              ∧ (flushEvent cfg st key batch).run = rt
          · rw [if_pos hcond]
            have hk2 : k' = key := by
              rw [← hcond.1, flushEvent_key]
            have hrt2 : rt = getRunId cfg st key := by
              rw [← hcond.2, flushEvent_run]
            rw [hk2, hrt2]
            cases hfck : batch.isFirstChunk with
            | true =>
              rw [(hfc batch hp).1 hfck]
              rw [List.nil_append]
              exact wellFormedRun_singleton _ _ (flushEvent_attrs_first cfg st key batch hfck)
            | false =>
              exact wellFormedRun_append _ _ _ (hcore.wf key (getRunId cfg st key))
                ((hfc batch hp).2 hfck)
                (flushEvent_attrs_rest cfg st key batch hfck)
          · rw [if_neg hcond, List.append_nil]
            exact hcore.wf k' rt
        · intro k' hk' rt
          have hkne : k' ≠ key := by
            intro h
            subst h
            rw [alookup_aset_self] at hk'
            exact Option.noConfusion hk'
          have hold : alookup st.pending k' = none := by
            rw [← alookup_aset_ne st.pending key k' batch.drain.2 hkne]
            exact hk'
          show evsFor (st.events ++ [flushEvent cfg st key batch]) k' rt = []
          rw [evsFor_append_one, hcore.fresh k' hold rt]
          rw [if_neg (fun hc => hkne (by rw [← hc.1, flushEvent_key]))]
          rfl
        · intro e he
          rcases List.mem_append.mp he with h | h
          · exact eventRunLe_congr cfg st _ e rfl rfl rfl (hcore.runLe e h)
          · rw [List.mem_singleton.mp h]
            exact eventRunLe_congr cfg st _ _ rfl rfl rfl
              (flushEvent_runLe cfg st key batch)
        · intro k' b' hb'
          by_cases hkne : k' = key
          · subst hkne
            rw [alookup_aset_self] at hb'
            cases hb'
            constructor
            · intro cid hcid
              rw [drain_snd_columns] at hcid
              simp [alookup] at hcid
            · intro h
              rw [drain_snd_timestamps] at h
              exact absurd rfl h
          · rw [alookup_aset_ne _ _ _ _ hkne] at hb'
            exact hcore.batchWf k' b' hb'
      · -- FirstCond at key
        intro _
        intro b' hb'
        rw [alookup_aset_self] at hb'
        cases hb'
        constructor
        · intro h
          rw [drain_snd_isFirstChunk] at h
          exact Bool.noConfusion h
        · intro _
          rw [hgr]
          show evsFor (st.events ++ [flushEvent cfg st key batch]) key
            (getRunId cfg st key) ≠ []
          rw [evsFor_append_one, if_pos ⟨flushEvent_key cfg st key batch,
            flushEvent_run cfg st key batch⟩]
          simp
      · -- DoneKey transfer (vacuous here)
        intro hd
        exact absurd ((hd batch hp).2) hemp
      · intro k' hk'
        exact alookup_aset_ne _ _ _ _ hk'
      · intro k' rt hk'
        show evsFor (st.events ++ [flushEvent cfg st key batch]) k' rt
          = evsFor st.events k' rt
        rw [evsFor_append_one]
        rw [if_neg (fun hc => hk' (by rw [← hc.1, flushEvent_key]))]
        rw [List.append_nil]
      · intro k'
        by_cases hk' : k' = key
        · subst hk'
          rw [alookup_aset_self, hp]
          simp
        · rw [alookup_aset_ne _ _ _ _ hk']

/-- `write_batch` never touches the pending map. -/
theorem writeBatch_pending (cfg : AppenderCfg) (st : AppenderState) (key : StreamKey)
    (batch : PendingBatch) : (writeBatch cfg st key batch).pending = st.pending := by
  by_cases h1 : batch.isEmpty = true
  · simp [writeBatch, h1]
  · by_cases h2 : (validColumns cfg key batch.streamMetadata.name batch).isEmpty = true
    · simp [writeBatch, h1, h2]
    · simp [writeBatch, h1, h2]

/-- After a flush the batch at the flushed key, if any, is empty. -/
theorem flushStream_key_empty (cfg : AppenderCfg) (st : AppenderState)
    (key : StreamKey) :
    ∀ b', alookup (flushStream cfg st key).pending key = some b' →
      b'.isEmpty = true := by
  intro b' hb'
  unfold flushStream at hb'
  cases hp : alookup st.pending key with
  | none =>
    simp only [hp] at hb'
    exact Option.noConfusion hb'
  | some batch =>
    simp only [hp] at hb'
    by_cases hemp : batch.isEmpty = true
    · rw [if_pos hemp] at hb'
      rw [hp] at hb'
      cases hb'
      exact hemp
    · rw [if_neg hemp] at hb'
      rw [writeBatch_pending] at hb'
      rw [alookup_aset_self] at hb'
      cases hb'
      rfl

/-- `FirstCond` transfers along a state change that leaves the key's pending
batch, its events and its current run untouched. -/
theorem firstCond_transfer (cfg : AppenderCfg) (st st' : AppenderState)
    (k : StreamKey)
    (hp : alookup st'.pending k = alookup st.pending k)
    (he : ∀ rt, evsFor st'.events k rt = evsFor st.events k rt)
    (hr : getRunId cfg st' k = getRunId cfg st k)
    (h : FirstCond cfg st k) : FirstCond cfg st' k := by
  intro b hb
  rw [hp] at hb
  rw [hr, he]
  exact h b hb

/-- `DoneKey` transfers along an unchanged pending entry. -/
theorem doneKey_transfer (st st' : AppenderState) (k : StreamKey)
    (hp : alookup st'.pending k = alookup st.pending k)
    (h : DoneKey st k) : DoneKey st' k := by
  intro b hb
  rw [hp] at hb
  exact h b hb

/-- `BatchWf` ignores the first-chunk flag. -/
theorem batchWf_setFirst (b : PendingBatch) (h : BatchWf b) :
    BatchWf { b with isFirstChunk := true } := h

/-- Setting a pending batch's first-chunk flag: the invariant core is
preserved and nothing else changes. -/
theorem setFirstChunk_step (cfg : AppenderCfg) (st : AppenderState) (key : StreamKey)
    (hcore : AppInvCore cfg st) :
    AppInvCore cfg (setFirstChunk st key)
    ∧ (setFirstChunk st key).events = st.events
    ∧ (setFirstChunk st key).streamRuns = st.streamRuns
    ∧ (setFirstChunk st key).deviceRuns = st.deviceRuns
    ∧ (setFirstChunk st key).globalRun = st.globalRun
    ∧ (∀ k', k' ≠ key →
        alookup (setFirstChunk st key).pending k' = alookup st.pending k')
    ∧ (∀ k', alookup (setFirstChunk st key).pending k' = none
        ↔ alookup st.pending k' = none) := by
  have hpend : ∀ k', k' ≠ key →
      alookup (setFirstChunk st key).pending k' = alookup st.pending k' := by
    intro k' hk'
    exact alookup_adjust_ne _ _ _ _ hk'
  have hkeyset : ∀ k', alookup (setFirstChunk st key).pending k' = none
      ↔ alookup st.pending k' = none := by
    intro k'
    by_cases hk' : k' = key
    · subst hk'
      show alookup (adjust st.pending k' _) k' = none ↔ _
      rw [alookup_adjust_self]
      cases alookup st.pending k' <;> simp
    · rw [hpend k' hk']
  refine ⟨⟨?_, hcore.wf, ?_, ?_, ?_⟩, rfl, rfl, rfl, rfl, hpend, hkeyset⟩
  · show (List.map Prod.fst (adjust st.pending key _)).Nodup
    rw [adjust_map_fst]
    exact hcore.nodup
  · intro k' hk' rt
    exact hcore.fresh k' ((hkeyset k').mp hk') rt
  · intro e he
    exact eventRunLe_congr cfg st _ e rfl rfl rfl (hcore.runLe e he)
  · intro k' b' hb'
    by_cases hk' : k' = key
    · subst hk'
      simp only [setFirstChunk] at hb'
      rw [alookup_adjust_self] at hb'
      cases hb0 : alookup st.pending k' with
      | none => rw [hb0] at hb'; exact Option.noConfusion hb'
      | some b =>
        rw [hb0] at hb'
        cases hb'
        exact batchWf_setFirst b (hcore.batchWf k' b hb0)
    · rw [hpend k' hk'] at hb'
      exact hcore.batchWf k' b' hb'

/-- One step of a discontinuity sweep: flush a stream and set its
first-chunk flag.  The `MidInv` invariant is preserved, the key becomes
`DoneKey`, and the rest of the state is untouched. -/
theorem flushSet_step (cfg : AppenderCfg) (st : AppenderState) (key : StreamKey)
    (hf : cfg.filter = none) (hmid : MidInv cfg st) :
    MidInv cfg (setFirstChunk (flushStream cfg st key) key)
    ∧ DoneKey (setFirstChunk (flushStream cfg st key) key) key
    ∧ (setFirstChunk (flushStream cfg st key) key).streamRuns = st.streamRuns
    ∧ (setFirstChunk (flushStream cfg st key) key).deviceRuns = st.deviceRuns
    ∧ (setFirstChunk (flushStream cfg st key) key).globalRun = st.globalRun
    ∧ (∀ k', k' ≠ key →
        alookup (setFirstChunk (flushStream cfg st key) key).pending k'
          = alookup st.pending k')
    ∧ (∀ k' rt, k' ≠ key →
        evsFor (setFirstChunk (flushStream cfg st key) key).events k' rt
          = evsFor st.events k' rt)
    ∧ (∀ k', alookup (setFirstChunk (flushStream cfg st key) key).pending k' = none
        ↔ alookup st.pending k' = none) := by
  obtain ⟨hcore1, _, _, hpend1, hevs1, hsr1, hdr1, hgr1, hks1⟩ :=
    flushStream_step cfg st key hf hmid.1 (hmid.2 key)
  obtain ⟨hcore2, hevents2, hsr2, hdr2, hgr2, hpend2, hks2⟩ :=
    setFirstChunk_step cfg (flushStream cfg st key) key hcore1
  have hkempty := flushStream_key_empty cfg st key
  refine ⟨⟨hcore2, ?_⟩, ?_, hsr2.trans hsr1, hdr2.trans hdr1, hgr2.trans hgr1,
    ?_, ?_, ?_⟩
  · -- MidInv conditions
    intro k
    by_cases hk : k = key
    · subst hk
      right
      intro b hb
      simp only [setFirstChunk] at hb
      rw [alookup_adjust_self] at hb
      cases hb0 : alookup (flushStream cfg st k).pending k with
      | none => rw [hb0] at hb; exact Option.noConfusion hb
      | some b0 =>
        rw [hb0] at hb
        cases hb
        exact ⟨rfl, hkempty b0 hb0⟩
    · rcases hmid.2 k with h | h
      · left
        refine firstCond_transfer cfg st _ k ?_ ?_ ?_ h
        · rw [hpend2 k hk, hpend1 k hk]
        · intro rt
          rw [hevents2, hevs1 k rt hk]
        · refine getRunId_congr cfg _ st k ?_ ?_ ?_
          · rw [hsr2, hsr1]
          · rw [hdr2, hdr1]
          · rw [hgr2, hgr1]
      · right
        refine doneKey_transfer st _ k ?_ h
        rw [hpend2 k hk, hpend1 k hk]
  · -- DoneKey at key
    intro b hb
    simp only [setFirstChunk] at hb
    rw [alookup_adjust_self] at hb
    cases hb0 : alookup (flushStream cfg st key).pending key with
    | none => rw [hb0] at hb; exact Option.noConfusion hb
    | some b0 =>
      rw [hb0] at hb
      cases hb
      exact ⟨rfl, hkempty b0 hb0⟩
  · intro k' hk'
    rw [hpend2 k' hk', hpend1 k' hk']
  · intro k' rt hk'
    rw [hevents2, hevs1 k' rt hk']
  · intro k'
    rw [hks2 k', hks1 k']

/-- A stream once flushed keeps the appender invariant. -/
theorem flushStream_appInv (cfg : AppenderCfg) (st : AppenderState) (key : StreamKey)
    (hf : cfg.filter = none) (hinv : AppInv cfg st) :
    AppInv cfg (flushStream cfg st key) := by
  obtain ⟨hcore1, hfc1, _, hpend1, hevs1, hsr1, hdr1, hgr1, _⟩ :=
    flushStream_step cfg st key hf hinv.1 (Or.inl (hinv.2 key))
  refine ⟨hcore1, ?_⟩
  intro k
  by_cases hk : k = key
  · subst hk
    exact hfc1 (hinv.2 k)
  · refine firstCond_transfer cfg st _ k (hpend1 k hk) (fun rt => hevs1 k rt hk)
      (getRunId_congr cfg _ st k hsr1 hdr1 hgr1) (hinv.2 k)

/-- The discontinuity sweep over a list of keys: `MidInv` is preserved, the
swept keys become `DoneKey`, and the run counters, the unswept keys'
batches and events, and the key set are untouched. -/
theorem flushSet_fold (cfg : AppenderCfg) (hf : cfg.filter = none) :
    ∀ (ks : List StreamKey) (st : AppenderState), MidInv cfg st →
      MidInv cfg (ks.foldl (fun st k => setFirstChunk (flushStream cfg st k) k) st)
      ∧ (∀ k ∈ ks,
          DoneKey (ks.foldl (fun st k => setFirstChunk (flushStream cfg st k) k) st) k)
      ∧ (ks.foldl (fun st k => setFirstChunk (flushStream cfg st k) k) st).streamRuns
          = st.streamRuns
      ∧ (ks.foldl (fun st k => setFirstChunk (flushStream cfg st k) k) st).deviceRuns
          = st.deviceRuns
      ∧ (ks.foldl (fun st k => setFirstChunk (flushStream cfg st k) k) st).globalRun
          = st.globalRun
      ∧ (∀ k', k' ∉ ks →
          alookup
              (ks.foldl (fun st k => setFirstChunk (flushStream cfg st k) k) st).pending
              k'
            = alookup st.pending k'
          ∧ ∀ rt,
            evsFor
                (ks.foldl (fun st k => setFirstChunk (flushStream cfg st k) k) st).events
                k' rt
              = evsFor st.events k' rt)
      ∧ (∀ k',
          alookup
              (ks.foldl (fun st k => setFirstChunk (flushStream cfg st k) k) st).pending
              k'
            = none
          ↔ alookup st.pending k' = none) := by
  intro ks
  induction ks with
  | nil =>
    intro st hmid
    exact ⟨hmid, by simp, rfl, rfl, rfl, fun k' _ => ⟨rfl, fun _ => rfl⟩,
      fun _ => Iff.rfl⟩
  | cons k ks ih =>
    intro st hmid
    obtain ⟨hmid1, hdone1, hsr1, hdr1, hgr1, huntouched1, hevs1, hks1⟩ :=
      flushSet_step cfg st k hf hmid
    obtain ⟨hmidF, hdoneF, hsrF, hdrF, hgrF, huntouchedF, hksF⟩ :=
      ih (setFirstChunk (flushStream cfg st k) k) hmid1
    simp only [List.foldl_cons]
    refine ⟨hmidF, ?_, hsrF.trans hsr1, hdrF.trans hdr1, hgrF.trans hgr1, ?_, ?_⟩
    · intro k2 hk2
      rcases List.mem_cons.mp hk2 with h | h
      · subst h
        by_cases hmem : k2 ∈ ks
        · exact hdoneF k2 hmem
        · exact doneKey_transfer _ _ k2 (huntouchedF k2 hmem).1 hdone1
      · exact hdoneF k2 h
    · intro k' hk'
      have hne : k' ≠ k := fun h => hk' (h ▸ List.mem_cons_self k ks)
      have hnotin : k' ∉ ks := fun h => hk' (List.mem_cons_of_mem k h)
      refine ⟨(huntouchedF k' hnotin).1.trans (huntouched1 k' hne), ?_⟩
      intro rt
      exact ((huntouchedF k' hnotin).2 rt).trans (hevs1 k' rt hne)
    · intro k'
      exact (hksF k').trans (hks1 k')

theorem alookupD_aset_self {K V : Type} [DecidableEq K] (l : List (K × V)) (k : K)
    (v d : V) : alookupD (aset l k v) k d = v := by
  simp [alookupD, alookup_aset_self]

theorem alookupD_aset_ne {K V : Type} [DecidableEq K] (l : List (K × V)) (k k' : K)
    (v d : V) (h : k' ≠ k) : alookupD (aset l k v) k' d = alookupD l k' d := by
  simp [alookupD, alookup_aset_ne _ _ _ _ h]

/-- A discontinuity leaves the appender invariant intact, at every split
level. -/
theorem handleDiscontinuity_inv (cfg : AppenderCfg) (st : AppenderState)
    (key : StreamKey) (hf : cfg.filter = none) (hinv : AppInv cfg st) :
    AppInv cfg (handleDiscontinuity cfg st key) := by
  cases hl : cfg.splitLevel with
  | nosplit =>
    simp only [handleDiscontinuity, hl]
    exact flushStream_appInv cfg st key hf hinv
  | perStream =>
    simp only [handleDiscontinuity, hl]
    obtain ⟨hmidS, hdoneS, hsrS, hdrS, hgrS, hpendS, hevsS, hksS⟩ :=
      flushSet_step cfg st key hf ⟨hinv.1, fun k => Or.inl (hinv.2 k)⟩
    set s := setFirstChunk (flushStream cfg st key) key with hs
    set v := alookupD s.streamRuns key 0 with hv
    refine ⟨⟨hmidS.1.nodup, hmidS.1.wf, hmidS.1.fresh, ?_, hmidS.1.batchWf⟩, ?_⟩
    · intro e he
      have hold := hmidS.1.runLe e he
      simp only [EventRunLe, hl] at hold ⊢
      obtain ⟨r, hr, hle⟩ := hold
      by_cases hk : e.key = key
      · refine ⟨r, hr, ?_⟩
        show r ≤ alookupD (aset s.streamRuns key (v + 1)) e.key 0
        rw [hk, alookupD_aset_self]
        rw [hk] at hle
        omega
      · refine ⟨r, hr, ?_⟩
        show r ≤ alookupD (aset s.streamRuns key (v + 1)) e.key 0
        rw [alookupD_aset_ne _ _ _ _ _ hk]
        exact hle
    · intro k
      by_cases hk : k = key
      · subst hk
        intro b hb
        have hb' : alookup s.pending k = some b := hb
        have hdone := hdoneS b hb'
        constructor
        · intro _
          have hrun : getRunId cfg
              ({ pending := s.pending, streamRuns := aset s.streamRuns k (v + 1),
                 deviceRuns := s.deviceRuns, globalRun := s.globalRun,
                 events := s.events } : AppenderState) k = some (v + 1) := by
            simp [getRunId, hl, alookupD_aset_self]
          rw [hrun]
          refine evsFor_eq_nil_of_forall _ _ _ ?_
          intro e he hc
          have hold := hmidS.1.runLe e he
          simp only [EventRunLe, hl] at hold
          obtain ⟨r, hr, hle⟩ := hold
          rw [hc.1] at hle
          rw [hr] at hc
          have : r = v + 1 := by
            injection hc.2
          omega
        · intro hfalse
          rw [hdone.1] at hfalse
          exact Bool.noConfusion hfalse
      · refine firstCond_transfer cfg st _ k ?_ ?_ ?_ (hinv.2 k)
        · exact hpendS k hk
        · intro rt
          exact hevsS k rt hk
        · have : alookupD (aset s.streamRuns key (v + 1)) k 0
              = alookupD st.streamRuns k 0 := by
            rw [alookupD_aset_ne _ _ _ _ _ hk]
            rw [hsrS]
          simp [getRunId, hl, this]
  | perDevice =>
    simp only [handleDiscontinuity, hl]
    obtain ⟨hmidF, hdoneF, hsrF, hdrF, hgrF, huntouchedF, hksF⟩ :=
      flushSet_fold cfg hf ((st.pending.map Prod.fst).filter
        (fun k => k.route = key.route)) st ⟨hinv.1, fun k => Or.inl (hinv.2 k)⟩
    set r := flushAllForDevice cfg st key.route with hr
    have hrfold : r = ((st.pending.map Prod.fst).filter
        (fun k => k.route = key.route)).foldl
          (fun st k => setFirstChunk (flushStream cfg st k) k) st := rfl
    rw [← hrfold] at hmidF hdoneF hsrF hdrF hgrF huntouchedF hksF
    set d := alookupD r.deviceRuns key.route 0 with hd
    refine ⟨⟨hmidF.1.nodup, hmidF.1.wf, hmidF.1.fresh, ?_, hmidF.1.batchWf⟩, ?_⟩
    · intro e he
      have hold := hmidF.1.runLe e he
      simp only [EventRunLe, hl] at hold ⊢
      obtain ⟨r', hr', hle⟩ := hold
      by_cases hk : e.key.route = key.route
      · refine ⟨r', hr', ?_⟩
        show r' ≤ alookupD (aset r.deviceRuns key.route (d + 1)) e.key.route 0
        rw [hk, alookupD_aset_self]
        rw [hk] at hle
        omega
      · refine ⟨r', hr', ?_⟩
        show r' ≤ alookupD (aset r.deviceRuns key.route (d + 1)) e.key.route 0
        rw [alookupD_aset_ne _ _ _ _ _ hk]
        exact hle
    · intro k
      by_cases hroute : k.route = key.route
      · intro b hb
        have hb' : alookup r.pending k = some b := hb
        have hmem : k ∈ (st.pending.map Prod.fst).filter
            (fun k => k.route = key.route) := by
          rw [List.mem_filter]
          constructor
          · have : ¬ alookup st.pending k = none := by
              intro hnone
              rw [← hksF k] at hnone
              rw [hnone] at hb'
              exact Option.noConfusion hb'
            by_contra hmem
            exact this ((alookup_eq_none_iff st.pending k).mpr hmem)
          · simp [hroute]
        have hdone := hdoneF k hmem b hb'
        constructor
        · intro _
          have hrun : getRunId cfg
              ({ pending := r.pending,
                 streamRuns := r.streamRuns,
                 deviceRuns := aset r.deviceRuns key.route (d + 1),
                 globalRun := r.globalRun,
                 events := r.events } : AppenderState) k = some (d + 1) := by
            simp [getRunId, hl, hroute, alookupD_aset_self]
          rw [hrun]
          refine evsFor_eq_nil_of_forall _ _ _ ?_
          intro e he hc
          have hold := hmidF.1.runLe e he
          simp only [EventRunLe, hl] at hold
          obtain ⟨r', hr', hle⟩ := hold
          rw [hc.1, hroute] at hle
          rw [hr'] at hc
          have : r' = d + 1 := by
            injection hc.2
          omega
        · intro hfalse
          rw [hdone.1] at hfalse
          exact Bool.noConfusion hfalse
      · have hnotin : k ∉ (st.pending.map Prod.fst).filter
            (fun k => k.route = key.route) := by
          intro hmem
          rw [List.mem_filter] at hmem
          simp at hmem
          exact hroute hmem.2
        refine firstCond_transfer cfg st _ k ?_ ?_ ?_ (hinv.2 k)
        · exact (huntouchedF k hnotin).1
        · intro rt
          exact (huntouchedF k hnotin).2 rt
        · have : alookupD (aset r.deviceRuns key.route (d + 1)) k.route 0
              = alookupD st.deviceRuns k.route 0 := by
            rw [alookupD_aset_ne _ _ _ _ _ hroute]
            rw [hdrF]
          simp [getRunId, hl, this]
  | global =>
    simp only [handleDiscontinuity, hl]
    obtain ⟨hmidF, hdoneF, hsrF, hdrF, hgrF, huntouchedF, hksF⟩ :=
      flushSet_fold cfg hf (st.pending.map Prod.fst) st
        ⟨hinv.1, fun k => Or.inl (hinv.2 k)⟩
    set r := flushAll cfg st with hr
    have hrfold : r = (st.pending.map Prod.fst).foldl
        (fun st k => setFirstChunk (flushStream cfg st k) k) st := rfl
    rw [← hrfold] at hmidF hdoneF hsrF hdrF hgrF huntouchedF hksF
    refine ⟨⟨hmidF.1.nodup, hmidF.1.wf, hmidF.1.fresh, ?_, hmidF.1.batchWf⟩, ?_⟩
    · intro e he
      have hold := hmidF.1.runLe e he
      simp only [EventRunLe, hl] at hold ⊢
      obtain ⟨r', hr', hle⟩ := hold
      exact ⟨r', hr', by omega⟩
    · intro k
      intro b hb
      have hb' : alookup r.pending k = some b := hb
      have hmem : k ∈ st.pending.map Prod.fst := by
        have : ¬ alookup st.pending k = none := by
          intro hnone
          rw [← hksF k] at hnone
          rw [hnone] at hb'
          exact Option.noConfusion hb'
        by_contra hmem
        exact this ((alookup_eq_none_iff st.pending k).mpr hmem)
      have hdone := hdoneF k hmem b hb'
      constructor
      · intro _
        have hrun : getRunId cfg
            ({ pending := r.pending, streamRuns := r.streamRuns,
               deviceRuns := r.deviceRuns, globalRun := r.globalRun + 1,
               events := r.events } : AppenderState) k = some (r.globalRun + 1) := by
          simp [getRunId, hl]
        rw [hrun]
        refine evsFor_eq_nil_of_forall _ _ _ ?_
        intro e he hc
        have hold := hmidF.1.runLe e he
        simp only [EventRunLe, hl] at hold
        obtain ⟨r', hr', hle⟩ := hold
        rw [hr'] at hc
        have : r' = r.globalRun + 1 := by
          injection hc.2
        omega
      · intro hfalse
        rw [hdone.1] at hfalse
        exact Bool.noConfusion hfalse

theorem pushColumn_isFirstChunk (b : PendingBatch) (c : SampleColumn) :
    (b.pushColumn c).isFirstChunk = b.isFirstChunk := rfl

theorem foldl_pushColumn_isFirstChunk :
    ∀ (cols : List SampleColumn) (b : PendingBatch),
      (cols.foldl PendingBatch.pushColumn b).isFirstChunk = b.isFirstChunk := by
  intro cols
  induction cols with
  | nil => intro b; rfl
  | cons c rest ih =>
    intro b
    rw [List.foldl_cons, ih, pushColumn_isFirstChunk]

theorem push_isFirstChunk (b : PendingBatch) (s : Sample) :
    (b.push s).isFirstChunk = b.isFirstChunk := by
  unfold PendingBatch.push
  rw [foldl_pushColumn_isFirstChunk]

theorem pushColumn_timestamps (b : PendingBatch) (c : SampleColumn) :
    (b.pushColumn c).timestamps = b.timestamps := rfl

theorem foldl_pushColumn_timestamps :
    ∀ (cols : List SampleColumn) (b : PendingBatch),
      (cols.foldl PendingBatch.pushColumn b).timestamps = b.timestamps := by
  intro cols
  induction cols with
  | nil => intro b; rfl
  | cons c rest ih =>
    intro b
    rw [List.foldl_cons, ih, pushColumn_timestamps]

theorem push_timestamps (b : PendingBatch) (s : Sample) :
    (b.push s).timestamps = b.timestamps ++ [s.timestampEnd] := by
  unfold PendingBatch.push
  rw [foldl_pushColumn_timestamps]

theorem pushColumn_columns_ne (b : PendingBatch) (c : SampleColumn) :
    (b.pushColumn c).columns ≠ [] := by
  show adjust (orInsert b.columns c.desc.index _) c.desc.index _ ≠ []
  exact adjust_ne_nil _ _ _ (orInsert_ne_nil _ _ _)

theorem foldl_pushColumn_columns_ne :
    ∀ (cols : List SampleColumn) (b : PendingBatch), b.columns ≠ [] →
      (cols.foldl PendingBatch.pushColumn b).columns ≠ [] := by
  intro cols
  induction cols with
  | nil => intro b h; exact h
  | cons c rest ih =>
    intro b _
    rw [List.foldl_cons]
    exact ih _ (pushColumn_columns_ne b c)

theorem pushColumn_wf1 (b : PendingBatch) (c : SampleColumn)
    (h : ∀ cid, (alookup b.columns cid).isSome = true →
      (alookup b.columnMetadata cid).isSome = true) :
    ∀ cid, (alookup (b.pushColumn c).columns cid).isSome = true →
      (alookup (b.pushColumn c).columnMetadata cid).isSome = true := by
  intro cid hcid
  show (alookup (orInsert b.columnMetadata c.desc.index c.desc) cid).isSome = true
  by_cases hc : cid = c.desc.index
  · subst hc
    rw [alookup_orInsert_self]
    rfl
  · rw [alookup_orInsert_ne _ _ _ _ hc]
    apply h
    have hcid2 : (alookup
        (adjust (orInsert b.columns c.desc.index
          (emptyColumnBatch c.desc.dataType.bufferType)) c.desc.index
          (fun cb => cb.pushValue c.value)) cid).isSome = true := hcid
    rw [alookup_adjust_ne _ _ _ _ hc] at hcid2
    rw [alookup_orInsert_ne _ _ _ _ hc] at hcid2
    exact hcid2

theorem foldl_pushColumn_wf1 :
    ∀ (cols : List SampleColumn) (b : PendingBatch),
      (∀ cid, (alookup b.columns cid).isSome = true →
        (alookup b.columnMetadata cid).isSome = true) →
      ∀ cid, (alookup (cols.foldl PendingBatch.pushColumn b).columns cid).isSome = true →
        (alookup (cols.foldl PendingBatch.pushColumn b).columnMetadata cid).isSome
          = true := by
  intro cols
  induction cols with
  | nil => intro b h; exact h
  | cons c rest ih =>
    intro b h
    rw [List.foldl_cons]
    exact ih _ (pushColumn_wf1 b c h)

/-- Pushing a sample with at least one column preserves batch
well-formedness, and the pushed batch is non-empty. -/
theorem push_batchWf (b : PendingBatch) (s : Sample) (hwf : BatchWf b)
    (hcols : s.columns ≠ []) : BatchWf (b.push s) := by
  constructor
  · unfold PendingBatch.push
    exact foldl_pushColumn_wf1 s.columns _ hwf.1
  · intro _
    unfold PendingBatch.push
    cases hc : s.columns with
    | nil => exact absurd hc hcols
    | cons c rest =>
      rw [List.foldl_cons]
      exact foldl_pushColumn_columns_ne rest _ (pushColumn_columns_ne _ c)

theorem writeSampleSplit_appInv (cfg : AppenderCfg) (st : AppenderState)
    (sample : Sample) (key : StreamKey) (hf : cfg.filter = none)
    (hinv : AppInv cfg st) : AppInv cfg (writeSampleSplit cfg st sample key) := by
  unfold writeSampleSplit
  split
  · exact handleDiscontinuity_inv cfg st key hf hinv
  · exact hinv

theorem writeSampleInsert_appInv (cfg : AppenderCfg) (st : AppenderState)
    (sample : Sample) (key : StreamKey) (hinv : AppInv cfg st) :
    AppInv cfg (writeSampleInsert st sample key) := by
  unfold writeSampleInsert
  split
  · rename_i habs
    rw [Option.isNone_iff_eq_none] at habs
    have hnotmem : key ∉ st.pending.map Prod.fst :=
      (alookup_eq_none_iff st.pending key).mp habs
    refine ⟨⟨?_, hinv.1.wf, ?_, ?_, ?_⟩, ?_⟩
    · show (List.map Prod.fst (aset st.pending key (PendingBatch.new sample))).Nodup
      rw [aset_map_fst_not_mem _ _ _ hnotmem]
      rw [List.nodup_append]
      refine ⟨hinv.1.nodup, List.nodup_singleton key, ?_⟩
      intro a ha hb
      rw [List.mem_singleton] at hb
      exact hnotmem (hb ▸ ha)
    · intro k' hk' rt
      have hk2 : alookup (aset st.pending key (PendingBatch.new sample)) k'
          = none := hk'
      have hkne : k' ≠ key := by
        intro h
        subst h
        rw [alookup_aset_self] at hk2
        exact Option.noConfusion hk2
      have hold : alookup st.pending k' = none := by
        rw [← alookup_aset_ne st.pending key k' (PendingBatch.new sample) hkne]
        exact hk2
      exact hinv.1.fresh k' hold rt
    · intro e he
      exact eventRunLe_congr cfg st _ e rfl rfl rfl (hinv.1.runLe e he)
    · intro k' b' hb'
      have hb2 : alookup (aset st.pending key (PendingBatch.new sample)) k'
          = some b' := hb'
      by_cases hkne : k' = key
      · subst hkne
        rw [alookup_aset_self] at hb2
        cases hb2
        constructor
        · intro cid hcid
          simp [PendingBatch.new, alookup] at hcid
        · intro h
          exact absurd rfl h
      · rw [alookup_aset_ne _ _ _ _ hkne] at hb2
        exact hinv.1.batchWf k' b' hb2
    · intro k
      by_cases hk : k = key
      · subst hk
        intro b' hb'
        have hb2 : alookup (aset st.pending k (PendingBatch.new sample)) k
            = some b' := hb'
        rw [alookup_aset_self] at hb2
        cases hb2
        constructor
        · intro _
          have hgr : getRunId cfg
              ({ pending := aset st.pending k (PendingBatch.new sample),
                 streamRuns := st.streamRuns, deviceRuns := st.deviceRuns,
                 globalRun := st.globalRun, events := st.events } : AppenderState) k
              = getRunId cfg st k := getRunId_congr cfg _ st k rfl rfl rfl
          rw [hgr]
          exact hinv.1.fresh k habs _
        · intro hfalse
          exact Bool.noConfusion hfalse
      · refine firstCond_transfer cfg st _ k ?_ (fun _ => rfl)
          (getRunId_congr cfg _ st k rfl rfl rfl) (hinv.2 k)
        exact alookup_aset_ne _ _ _ _ hk
  · exact hinv

theorem writeSamplePush_appInv (cfg : AppenderCfg) (st : AppenderState)
    (sample : Sample) (key : StreamKey) (hcols : sample.columns ≠ [])
    (hinv : AppInv cfg st) : AppInv cfg (writeSamplePush st sample key) := by
  unfold writeSamplePush
  refine ⟨⟨?_, hinv.1.wf, ?_, ?_, ?_⟩, ?_⟩
  · show (List.map Prod.fst (adjust st.pending key _)).Nodup
    rw [adjust_map_fst]
    exact hinv.1.nodup
  · intro k' hk' rt
    have hk2 : alookup (adjust st.pending key (fun b => b.push sample)) k' = none := hk'
    have hold : alookup st.pending k' = none := by
      by_cases hkne : k' = key
      · subst hkne
        rw [alookup_adjust_self] at hk2
        cases h : alookup st.pending k' with
        | none => rfl
        | some b => rw [h] at hk2; exact Option.noConfusion hk2
      · rw [alookup_adjust_ne _ _ _ _ hkne] at hk2
        exact hk2
    exact hinv.1.fresh k' hold rt
  · intro e he
    exact eventRunLe_congr cfg st _ e rfl rfl rfl (hinv.1.runLe e he)
  · intro k' b' hb'
    by_cases hkne : k' = key
    · subst hkne
      have hb2 : alookup (adjust st.pending k' (fun b => b.push sample)) k'
          = some b' := hb'
      rw [alookup_adjust_self] at hb2
      cases h : alookup st.pending k' with
      | none => rw [h] at hb2; exact Option.noConfusion hb2
      | some b =>
        rw [h] at hb2
        cases hb2
        exact push_batchWf b sample (hinv.1.batchWf k' b h) hcols
    · have hb2 : alookup (adjust st.pending key (fun b => b.push sample)) k'
          = some b' := hb'
      rw [alookup_adjust_ne _ _ _ _ hkne] at hb2
      exact hinv.1.batchWf k' b' hb2
  · intro k
    by_cases hk : k = key
    · subst hk
      intro b' hb'
      have hb2 : alookup (adjust st.pending k (fun b => b.push sample)) k
          = some b' := hb'
      rw [alookup_adjust_self] at hb2
      cases h : alookup st.pending k with
      | none => rw [h] at hb2; exact Option.noConfusion hb2
      | some b =>
        rw [h] at hb2
        cases hb2
        have hgr : getRunId cfg
            ({ pending := adjust st.pending k (fun b => b.push sample),
               streamRuns := st.streamRuns, deviceRuns := st.deviceRuns,
               globalRun := st.globalRun, events := st.events } : AppenderState) k
            = getRunId cfg st k := getRunId_congr cfg _ st k rfl rfl rfl

        have hcond := hinv.2 k b h
        constructor
        · intro hfirst
          rw [push_isFirstChunk] at hfirst
          rw [hgr]
          exact hcond.1 hfirst
        · intro hfirst
          rw [push_isFirstChunk] at hfirst
          rw [hgr]
          exact hcond.2 hfirst
    · refine firstCond_transfer cfg st _ k ?_ (fun _ => rfl)
        (getRunId_congr cfg _ st k rfl rfl rfl) (hinv.2 k)
      exact alookup_adjust_ne _ _ _ _ hk

theorem writeSampleFlush_appInv (cfg : AppenderCfg) (st : AppenderState)
    (key : StreamKey) (hf : cfg.filter = none) (hinv : AppInv cfg st) :
    AppInv cfg (writeSampleFlush cfg st key) := by
  unfold writeSampleFlush
  cases alookup st.pending key with
  | none => exact hinv
  | some b =>
    show AppInv cfg (if cfg.batchSize ≤ b.length then flushStream cfg st key else st)
    by_cases hsize : cfg.batchSize ≤ b.length
    · rw [if_pos hsize]
      exact flushStream_appInv cfg st key hf hinv
    · rw [if_neg hsize]
      exact hinv

/-- `write_sample` preserves the appender invariant. -/
theorem writeSample_appInv (cfg : AppenderCfg) (st : AppenderState) (sample : Sample)
    (key : StreamKey) (hf : cfg.filter = none) (hcols : sample.columns ≠ [])
    (hinv : AppInv cfg st) : AppInv cfg (writeSample cfg st sample key) := by
  unfold writeSample
  exact writeSampleFlush_appInv cfg _ key hf
    (writeSamplePush_appInv cfg _ sample key hcols
      (writeSampleInsert_appInv cfg _ sample key
        (writeSampleSplit_appInv cfg st sample key hf hinv)))

/-- The fresh appender satisfies the invariant. -/
theorem appInv_initial (cfg : AppenderCfg) : AppInv cfg AppenderState.initial := by
  refine ⟨⟨?_, ?_, ?_, ?_, ?_⟩, ?_⟩
  · exact List.nodup_nil
  · intro key rt
    show WellFormedRun cfg.splitLevel (evsFor [] key rt)
    rw [evsFor_nil]
    trivial
  · intro key _ rt
    rfl
  · intro e he
    simp [AppenderState.initial] at he
  · intro key b hb
    simp [AppenderState.initial, alookup] at hb
  · intro key b hb
    simp [AppenderState.initial, alookup] at hb

/-- Feeding any sample sequence whose samples carry at least one column
preserves the invariant. -/
theorem writeSamples_appInv (cfg : AppenderCfg) (hf : cfg.filter = none) :
    ∀ (ops : List (Sample × StreamKey)) (st : AppenderState),
      (∀ p ∈ ops, (Prod.fst p).columns ≠ []) → AppInv cfg st →
      AppInv cfg (writeSamples cfg st ops) := by
  intro ops
  induction ops with
  | nil => intro st _ hinv; exact hinv
  | cons p ps ih =>
    intro st hcols hinv
    show AppInv cfg (writeSamples cfg (writeSample cfg st p.1 p.2) ps)
    refine ih _ (fun q hq => hcols q (List.mem_cons_of_mem p hq)) ?_
    exact writeSample_appInv cfg st p.1 p.2 hf
      (hcols p (List.mem_cons_self p ps)) hinv

/-- Finishing flushes every pending stream and preserves the invariant. -/
theorem finishAppender_appInv (cfg : AppenderCfg) (st : AppenderState)
    (hf : cfg.filter = none) (hinv : AppInv cfg st) :
    AppInv cfg (finishAppender cfg st) := by
  unfold finishAppender
  generalize st.pending.map Prod.fst = ks
  induction ks generalizing st with
  | nil => exact hinv
  | cons k rest ih =>
    rw [List.foldl_cons]
    exact ih _ (flushStream_appInv cfg st k hf hinv)

/-- C6 (amended): provided no flushed chunk of a run is entirely filtered
out — here: no column filter is configured and every sample carries at
least one column — then for every run of every stream the group attributes
are written exactly once, on the run's first flushed chunk: the run's first
chunk event carries exactly the attribute list `sampling_rate, decimation,
start_time, filter_cutoff, session_id, [run_id iff split_level ≠ None],
time_ref_epoch, filter_type, [time_ref_serial iff the segment's serial is
non-empty]`, and every later chunk of the run carries no attributes. -/
theorem claim_C6_amended (cfg : AppenderCfg) (ops : List (Sample × StreamKey))
    (hf : cfg.filter = none)
    (hcols : ∀ p ∈ ops, (Prod.fst p).columns ≠ ([] : List SampleColumn)) :
    ∀ key rt, WellFormedRun cfg.splitLevel (evsFor (runAppender cfg ops) key rt) := by
  intro key rt
  have h1 := writeSamples_appInv cfg hf ops AppenderState.initial hcols
    (appInv_initial cfg)
  have h2 := finishAppender_appInv cfg _ hf h1
  exact h2.1.wf key rt

/-- C6 amended witness: in the concrete per-stream monotonic scenario, the
run 0 of the single stream has a well-formed event list — its first chunk
carries exactly the expected attributes. -/
theorem claim_C6_amended_witness :
    WellFormedRun cfgScenario4.splitLevel
      (evsFor (runAppender cfgScenario4 opsScenario4) keyRoot (some 0)) :=
  claim_C6_amended cfgScenario4 opsScenario4 rfl (by decide) keyRoot (some 0)

end Twinleaf
